import Mathlib

/-!
Verification of the job orchestrator and batch download pipeline of the
spotidownloader-pwa repository (src/job_manager.py, src/download_service.py,
src/api_models.py, src/server_spotidownloader.py).

The Python source is shallowly embedded: each Python function becomes a Lean
function over explicit state.  Because Python dictionaries hold object
references and `JobStatusResponse` records are mutated in place, the job
registry is modelled with an explicit heap: `refs` maps a job id to a heap
address and `heap` maps addresses to job records.  `dict.copy()` (a shallow
copy) then corresponds to capturing the `refs` map while continuing to read
job records through the live heap.

Python's `int(((completed+failed+skipped)/total)*100)` is evaluated in IEEE-754
binary64 arithmetic; `roundF64` below models correct rounding (round to
nearest, ties to even) of a rational to a binary64 value, for the nonnegative,
non-overflowing range in which every value of this program lies (counts and
percentages; values at or beyond 2^1024, which would overflow to infinity, are
unreachable here and are not modelled).
-/

namespace SpotiDL

/-- `JobStatus` from src/api_models.py. -/
inductive JobStatus where
  | pending
  | running
  | completed
  | failed
  | skipped
deriving DecidableEq

/-- `JobStatusResponse` from src/api_models.py: the mutable per-job record. -/
structure Job where
  jobId : String
  status : JobStatus
  progress : Int
  currentTrack : Option String := none
  totalTracks : Nat
  completedTracks : Nat
  failedTracks : Nat
  skippedTracks : Nat
  errorMessage : Option String := none
  downloadPath : Option String := none
  downloadedFiles : List String := []
deriving DecidableEq

/-- Fuel-driven base-2 logarithm on naturals (structurally recursive so that
the kernel can evaluate it on large literals). -/
def log2fuel : Nat → Nat → Nat
  | 0, _ => 0
  | f + 1, n => if n ≤ 1 then 0 else log2fuel f (n / 2) + 1

/-- `natLog2 n` is the position of the leading bit of `n` (0 for `n ≤ 1`);
`n` itself is always enough fuel. -/
def natLog2 (n : Nat) : Nat := log2fuel n n

/-- A finite IEEE-754 binary64 value `m * 2^e` (not necessarily normalized;
only nonnegative mantissas arise in this program). -/
structure F64 where
  m : Int
  e : Int
deriving DecidableEq

/-- Round a nonnegative integer mantissa (round to nearest, ties to even)
down to at most 53 bits, adjusting the exponent. -/
def roundMantissa (m : Int) (e : Int) : F64 :=
  let n := m.toNat
  if n < 2 ^ 53 then ⟨m, e⟩
  else
    let s := natLog2 n - 52
    let q := n / 2 ^ s
    let r := n % 2 ^ s
    let q' : Nat :=
      if 2 * r < 2 ^ s then q
      else if 2 ^ s < 2 * r then q + 1
      else if q % 2 = 0 then q else q + 1
    ⟨(q' : Int), e + s⟩

/-- Correctly rounded binary64 quotient of two naturals (round to nearest,
ties to even, subnormals at scale 2^-1074).  This is what Python's `/` on two
ints computes.  `d = 0` raises ZeroDivisionError in Python and is mapped to 0
here; all call sites guard `d ≠ 0`.  Overflow to infinity (quotients at or
beyond 2^1024) is unreachable in this program and not modelled. -/
def divF64 (n d : Nat) : F64 :=
  if n = 0 ∨ d = 0 then ⟨0, 0⟩
  else
    let a := natLog2 n
    let b := natLog2 d
    -- binary exponent of n/d: either a - b or a - b - 1
    let e : Int := if n * 2 ^ b < d * 2 ^ a then (a : Int) - b - 1 else (a : Int) - b
    let u : Int := max (e - 52) (-1074)
    -- round n / d / 2^u to an integer, ties to even
    let N : Nat := if 0 ≤ u then n else n * 2 ^ (-u).toNat
    let D : Nat := if 0 ≤ u then d * 2 ^ u.toNat else d
    let q := N / D
    let r := N % D
    let m : Nat :=
      if 2 * r < D then q
      else if D < 2 * r then q + 1
      else if q % 2 = 0 then q else q + 1
    ⟨(m : Int), u⟩

/-- Binary64 multiplication of a float by an exact small natural (here 100,
whose conversion to float is exact): multiply mantissas, then round. -/
def mulF64Nat (f : F64) (k : Nat) : F64 :=
  roundMantissa (f.m * (k : Int)) f.e

/-- Python `int()` applied to a finite float: truncation toward zero
(mantissas here are nonnegative, so truncation is floor). -/
def truncF64 (f : F64) : Int :=
  if 0 ≤ f.e then f.m * (2 : Int) ^ f.e.toNat
  else Int.tdiv f.m ((2 : Int) ^ (-f.e).toNat)

/-- `int(((completed + failed + skipped) / total_tracks) * 100)` from
src/job_manager.py line 51: the division of two Python ints yields the
correctly rounded double of the exact quotient, the multiplication by 100
rounds again, and `int` truncates.  (`total = 0` would raise
ZeroDivisionError in Python; every job that reaches this code has
`total_tracks ≥ 1`, see src/server_spotidownloader.py lines 226-234.) -/
def pyProgress (completed failed skipped total : Nat) : Int :=
  truncF64 (mulF64Nat (divF64 (completed + failed + skipped) total) 100)

/-- An `asyncio.Task` handle as far as `JobManager` observes it: whether it
has finished, and whether cancellation has been requested on it. -/
structure TaskRec where
  done : Bool
  cancelRequested : Bool
deriving DecidableEq

/-- The state of a `JobManager` (src/job_manager.py).  `jobs` is a Python
dict from job id to a `JobStatusResponse` object reference; we split it into
`refs` (id to heap address) and `heap` (address to record) to model
Python's reference semantics.  `nextRef` supplies fresh addresses. -/
structure JobManager where
  refs : String → Option Nat
  heap : Nat → Job
  nextRef : Nat
  tasks : String → Option TaskRec

/-- The record built by `JobManager.create_job` (src/job_manager.py 17-34). -/
def freshJob (id : String) (total : Nat) (path : String) : Job :=
  { jobId := id
    status := .pending
    progress := 0
    totalTracks := total
    completedTracks := 0
    failedTracks := 0
    skippedTracks := 0
    downloadPath := some path }

/-- `JobManager.create_job`: allocate a new `JobStatusResponse` in `Pending`
and bind the (fresh uuid) id to it.  Freshness of the id is a side condition
at call sites. -/
def create_job (jm : JobManager) (id : String) (total : Nat) (path : String) : JobManager :=
  { jm with
    refs := fun x => if x = id then some jm.nextRef else jm.refs x
    heap := fun r => if r = jm.nextRef then freshJob id total path else jm.heap r
    nextRef := jm.nextRef + 1 }

/-- In-place mutation of the job object at heap address `r`. -/
def mutateAt (jm : JobManager) (r : Nat) (f : Job → Job) : JobManager :=
  { jm with heap := fun x => if x = r then f (jm.heap r) else jm.heap x }

/-- The `if job_id in self.jobs:` guard shared by every mutating method of
`JobManager`: mutate the referenced job object in place, no-op when the id
is unknown. -/
def mutateJob (jm : JobManager) (id : String) (f : Job → Job) : JobManager :=
  match jm.refs id with
  | none => jm
  | some r => mutateAt jm r f

/-- `JobManager.update_job_status` (src/job_manager.py 36-41): no-op when the
id is unknown; `error_message` is stored only when truthy (non-None and
nonempty). -/
def update_job_status (jm : JobManager) (id : String) (st : JobStatus)
    (errorMessage : Option String) : JobManager :=
  mutateJob jm id fun j =>
    { j with
      status := st
      errorMessage :=
        match errorMessage with
        | some m => if m = "" then j.errorMessage else some m
        | none => j.errorMessage }

/-- `JobManager.update_job_progress` (src/job_manager.py 43-51): no-op when
the id is unknown; otherwise store the label and the three counts and
recompute `progress` with Python float arithmetic. -/
def update_job_progress (jm : JobManager) (id : String) (currentTrack : String)
    (completed failed skipped : Nat) : JobManager :=
  mutateJob jm id fun j =>
    { j with
      currentTrack := some currentTrack
      completedTracks := completed
      failedTracks := failed
      skippedTracks := skipped
      progress := pyProgress completed failed skipped j.totalTracks }

/-- `JobManager.add_downloaded_file` (src/job_manager.py 53-56). -/
def add_downloaded_file (jm : JobManager) (id : String) (filePath : String) : JobManager :=
  mutateJob jm id fun j => { j with downloadedFiles := j.downloadedFiles ++ [filePath] }

/-- `JobManager.get_job_status` (src/job_manager.py 58-60): dereference the
live object. -/
def get_job_status (jm : JobManager) (id : String) : Option Job :=
  (jm.refs id).map jm.heap

/-- `JobManager.get_all_jobs` (src/job_manager.py 62-64): `self.jobs.copy()`
is a shallow dict copy — a fresh mapping holding the same object references.
The returned value is therefore the reference map as of now. -/
def get_all_jobs (jm : JobManager) : String → Option Nat := jm.refs

/-- Reading a job through a previously returned `get_all_jobs` snapshot
dereferences the shared object, i.e. the current heap. -/
def snapshotLookup (snap : String → Option Nat) (jm : JobManager) (id : String) : Option Job :=
  (snap id).map jm.heap

/-- `JobManager.register_task` (src/job_manager.py 66-68). -/
def register_task (jm : JobManager) (id : String) (t : TaskRec) : JobManager :=
  { jm with tasks := fun x => if x = id then some t else jm.tasks x }

/-- `JobManager.cancel_job` (src/job_manager.py 70-78): if a task is
registered and not done, request its cancellation, eagerly mark the job
`Failed` with "Job cancelled by user", and return True; otherwise return
False and change nothing. -/
def cancel_job (jm : JobManager) (id : String) : Bool × JobManager :=
  match jm.tasks id with
  | none => (false, jm)
  | some t =>
    if t.done then (false, jm)
    else
      let jm1 : JobManager :=
        { jm with
          tasks := fun x => if x = id then some { t with cancelRequested := true } else jm.tasks x }
      (true, update_job_status jm1 id .failed (some "Job cancelled by user"))

/-- The initial state of the global `job_manager` (src/job_manager.py 119):
empty job dict, empty task dict.  Heap addresses not yet allocated hold an
arbitrary junk record. -/
def jmInit : JobManager :=
  { refs := fun _ => none
    heap := fun _ => freshJob "" 0 ""
    nextRef := 0
    tasks := fun _ => none }

/-- The progress formula as the spec states it:
`floor(100 * (completed+failed+skipped) / total)`, i.e. exact integer
division. -/
def specProgress (completed failed skipped total : Nat) : Nat :=
  100 * (completed + failed + skipped) / total

/-- Dividing a positive natural by itself yields the binary64 value 1
(mantissa 2^52, exponent -52): the exact quotient 1 is representable, so
correct rounding returns it. -/
theorem divF64_self (n : Nat) (hn : 0 < n) : divF64 n n = ⟨4503599627370496, -52⟩ := by
  unfold divF64
  rw [if_neg (by omega : ¬(n = 0 ∨ n = 0))]
  dsimp only
  rw [if_neg (lt_irrefl (n * 2 ^ natLog2 n))]
  rw [sub_self]
  norm_num
  rw [if_pos hn]
  have hn' : (n : Int) ≠ 0 := by exact_mod_cast hn.ne'
  rw [Int.mul_ediv_cancel_left _ hn']
  decide

/-- When the counts sum to the job's total, the float computation is exact:
`total/total` rounds to exactly 1, `1 * 100` rounds to exactly 100, and
truncation yields 100. -/
theorem pyProgress_of_sum_eq_total (c f s : Nat) (h : 0 < c + f + s) :
    pyProgress c f s (c + f + s) = 100 := by
  unfold pyProgress
  rw [divF64_self _ h]
  decide

/-- C6 counterexample: the claim "after report_progress the job's progress
equals floor(100 * (completed+failed+skipped) / total_tracks)" is false at
completed = 29, failed = skipped = 0, total_tracks = 100.  Python evaluates
`int((29/100)*100)`: the double nearest 29/100 is slightly below it, so the
product is 28.999999999999996 and `int` truncates to 28, while the claimed
floor is 29. -/
theorem C6_counterexample :
    (get_job_status
        (update_job_progress (create_job jmInit "job-a" 100 "./downloads") "job-a" "Track 30" 29 0 0)
        "job-a").map Job.progress = some 28
    ∧ specProgress 29 0 0 100 = 29 ∧ (28 : Int) ≠ (29 : Int) := by
  refine ⟨by decide, by decide, by decide⟩

/-- C6 (amended): `progress` is the value of the Python float expression
`int(((completed+failed+skipped)/total_tracks)*100)`, which can fall one
below `floor(100*(completed+failed+skipped)/total)` (e.g. 29 of 100 yields
28, see `C6_counterexample`); when the counts sum to the job's (positive)
total the computation is exact and `progress = 100`. -/
theorem C6_amended (jm : JobManager) (id L : String) (c f s r : Nat)
    (hr : jm.refs id = some r) (htot : (jm.heap r).totalTracks = c + f + s)
    (hpos : 0 < c + f + s) :
    ((update_job_progress jm id L c f s).heap r).progress = 100 := by
  unfold update_job_progress mutateJob
  rw [hr]
  unfold mutateAt
  simp only [if_pos rfl]
  rw [htot]
  exact pyProgress_of_sum_eq_total c f s hpos

/-- Witness for `C6_amended` at a concrete job: total 3, counts 2+1+0. -/
theorem C6_amended_witness :
    ((update_job_progress (create_job jmInit "j" 3 "p") "j" "done" 2 1 0).heap 0).progress = 100 :=
  C6_amended (create_job jmInit "j" 3 "p") "j" "done" 2 1 0 0 (by decide) (by decide) (by decide)

/-- C10: `update_job_status`, `update_job_progress` and
`add_downloaded_file` invoked with a job id absent from the registry return
the state unchanged (each is a total function, so no exception can
propagate; the Python bodies guard every mutation behind
`if job_id in self.jobs`). -/
theorem C10_unknown_id_noop (jm : JobManager) (id : String) (h : jm.refs id = none)
    (st : JobStatus) (em : Option String) (L fp : String) (c f s : Nat) :
    update_job_status jm id st em = jm
    ∧ update_job_progress jm id L c f s = jm
    ∧ add_downloaded_file jm id fp = jm := by
  unfold update_job_status update_job_progress add_downloaded_file mutateJob
  rw [h]
  exact ⟨rfl, rfl, rfl⟩

/-- Witness for `C10_unknown_id_noop`: the empty registry and an unknown id. -/
theorem C10_unknown_id_noop_witness :
    update_job_status jmInit "ghost" .failed none = jmInit
    ∧ update_job_progress jmInit "ghost" "L" 1 2 3 = jmInit
    ∧ add_downloaded_file jmInit "ghost" "f.mp3" = jmInit :=
  C10_unknown_id_noop jmInit "ghost" rfl .failed none "L" "f.mp3" 1 2 3

/-- C5: `cancel_job` on a job whose registered task is already done returns
`false` and leaves the whole state unchanged; on a live (not done) task it
returns `true`, requests cooperative cancellation (`cancelRequested` set on
the task, whose `done` flag is still false — so the status is set eagerly,
before the task has stopped), and immediately marks the job `Failed` with
error message "Job cancelled by user". -/
theorem C5_cancel (jm : JobManager) (id : String) :
    (∀ t, jm.tasks id = some t → t.done = true → cancel_job jm id = (false, jm))
    ∧ (∀ t r, jm.tasks id = some t → t.done = false → jm.refs id = some r →
        (cancel_job jm id).1 = true
        ∧ (cancel_job jm id).2.tasks id = some { done := false, cancelRequested := true }
        ∧ (cancel_job jm id).2.refs = jm.refs
        ∧ ((cancel_job jm id).2.heap r).status = .failed
        ∧ ((cancel_job jm id).2.heap r).errorMessage = some "Job cancelled by user") := by
  constructor
  · intro t ht hdone
    simp [cancel_job, ht, hdone]
  · intro t r ht hdone hr
    simp [cancel_job, ht, hdone, update_job_status, mutateJob, hr, mutateAt]

/-- Witness for `C5_cancel`: a registry with one live task and one done
task. -/
theorem C5_cancel_witness :
    (cancel_job (register_task (create_job jmInit "j" 2 "p") "j" ⟨true, false⟩) "j"
      = (false, register_task (create_job jmInit "j" 2 "p") "j" ⟨true, false⟩))
    ∧ ((cancel_job (register_task (create_job jmInit "k" 2 "p") "k" ⟨false, false⟩) "k").1 = true
        ∧ ((cancel_job (register_task (create_job jmInit "k" 2 "p") "k" ⟨false, false⟩) "k").2.heap
            0).status = .failed) := by
  constructor
  · exact (C5_cancel (register_task (create_job jmInit "j" 2 "p") "j" ⟨true, false⟩) "j").1
      ⟨true, false⟩ (by decide) rfl
  · have h := (C5_cancel (register_task (create_job jmInit "k" 2 "p") "k" ⟨false, false⟩) "k").2
      ⟨false, false⟩ 0 (by decide) rfl (by decide)
    exact ⟨h.1, h.2.2.2.1⟩

/-- C9 counterexample: `get_all_jobs` is `self.jobs.copy()`, a *shallow*
dict copy holding the same `JobStatusResponse` objects.  A later
`update_job_progress` mutates the shared object in place, and the new value
(here `completed_tracks = 1`) is observable by reading through the
previously returned snapshot, refuting "no subsequent registry mutation is
observable through the returned map". -/
theorem C9_counterexample :
    (snapshotLookup (get_all_jobs (create_job jmInit "j" 4 "p"))
        (update_job_progress (create_job jmInit "j" 4 "p") "j" "t1" 1 0 0)
        "j").map Job.completedTracks = some 1
    ∧ (snapshotLookup (get_all_jobs (create_job jmInit "j" 4 "p"))
        (create_job jmInit "j" 4 "p") "j").map Job.completedTracks = some 0 := by
  refine ⟨by decide, by decide⟩

/-- C9 (amended): `get_all_jobs` returns a shallow copy: the id → record
mapping is fixed at call time, so a job created afterwards is invisible
through the snapshot; but the records are shared by reference, so a field
mutation such as `update_job_progress` is observable through the snapshot
exactly as through the live registry. -/
theorem C9_amended (jm : JobManager) (id newId : String)
    (hnew : jm.refs newId = none) (total : Nat) (path L : String) (c f s : Nat) :
    snapshotLookup (get_all_jobs jm) (create_job jm newId total path) newId = none
    ∧ snapshotLookup (get_all_jobs jm) (update_job_progress jm id L c f s) id
        = get_job_status (update_job_progress jm id L c f s) id := by
  constructor
  · unfold snapshotLookup get_all_jobs
    rw [hnew]
    rfl
  · unfold snapshotLookup get_all_jobs get_job_status update_job_progress mutateJob
    cases h : jm.refs id with
    | none => dsimp only; rw [h]
    | some r => dsimp only [mutateAt]; rw [h]

/-- Witness for `C9_amended` at a concrete registry. -/
theorem C9_amended_witness :
    snapshotLookup (get_all_jobs (create_job jmInit "j" 4 "p"))
        (create_job (create_job jmInit "j" 4 "p") "k" 2 "q") "k" = none
    ∧ snapshotLookup (get_all_jobs (create_job jmInit "j" 4 "p"))
        (update_job_progress (create_job jmInit "j" 4 "p") "j" "t" 1 0 0) "j"
        = get_job_status (update_job_progress (create_job jmInit "j" 4 "p") "j" "t" 1 0 0) "j" :=
  C9_amended (create_job jmInit "j" 4 "p") "j" "k" (by decide) 2 "q" "t" 1 0 0

/-! ## Track fetcher (src/download_service.py) -/

/-- A character of the class `<>:"/\|?*` replaced by
`re.sub` in `get_formatted_filename` (src/download_service.py line 36). -/
def badFilenameChar (c : Char) : Bool :=
  c = '<' || c = '>' || c = ':' || c = Char.ofNat 34 || c = '/' || c = '\\' || c = '|' || c = '?' || c = '*'

/-- The `re.sub` replacement lambda: a double quote becomes an apostrophe,
every other illegal character an underscore. -/
def sanitizeChar (c : Char) : Char :=
  if badFilenameChar c then (if c = Char.ofNat 34 then Char.ofNat 39 else '_') else c

/-- `re.sub(r'[<>:"/\\|?*]', ..., filename)`. -/
def sanitizeFilename (s : String) : String := ⟨s.data.map sanitizeChar⟩

/-- One decimal digit as a character. -/
def digitChar (n : Nat) : Char := Char.ofNat (48 + n % 10)

/-- Fuel-driven decimal rendering of a natural (structural, so the kernel
can evaluate it). -/
def natDigits : Nat → Nat → String
  | 0, _ => ""
  | f + 1, n =>
    if n < 10 then ⟨[digitChar n]⟩ else natDigits f (n / 10) ++ ⟨[digitChar (n % 10)]⟩

/-- Python `str(n)` for a natural number; `n + 1` is always enough fuel. -/
def natToStr (n : Nat) : String := natDigits (n + 1) n

/-- Python `f"{n:02d}"` for a natural track number. -/
def pad2 (n : Nat) : String := if n < 10 then "0" ++ natToStr n else natToStr n

/-- `os.path.join(p, f)` in the shape this program uses it: `f` is a
sanitized filename (no path separator, never absolute). -/
def joinPath (p f : String) : String :=
  if p = "" then f
  else if p.data.getLast? = some '/' then p ++ f
  else p ++ "/" ++ f

/-- ASCII `str.lower()` on one character (every path this program builds is
handled character-wise; non-ASCII characters are left unchanged, which is
all the `.flac`-suffix test below observes). -/
def asciiLower (c : Char) : Char :=
  if 65 ≤ c.toNat ∧ c.toNat ≤ 90 then Char.ofNat (c.toNat + 32) else c

/-- `str.lower()` on a string, character-wise. -/
def strLower (s : String) : String := ⟨s.data.map asciiLower⟩

/-- `s.endswith(t)`. -/
def strEndsWith (s t : String) : Bool := t.data.isSuffixOf s.data

/-- `filepath.lower().endswith('.flac')` (src/download_service.py line 56). -/
def hasFlacExtLower (path : String) : Bool := strEndsWith (strLower path) ".flac"

/-- What the Validity Checker can observe of a file on disk: its size in
bytes and the outcome of `mutagen.mp3.MP3(filepath)` — `some d` for a
successful parse with `info.length = d` seconds, `none` when the parse
raises. -/
structure FileMeta where
  size : Nat
  mp3 : Option ℚ
deriving DecidableEq

/-- The filesystem as a map from path to file. -/
def FS := String → Option FileMeta

/-- Write (or overwrite) a file. -/
def fsSet (fs : FS) (p : String) (m : FileMeta) : FS :=
  fun x => if x = p then some m else fs x

/-- `os.remove`. -/
def fsErase (fs : FS) (p : String) : FS :=
  fun x => if x = p then none else fs x

/-- The body of `is_valid_existing_file` once the file is known to exist
(src/download_service.py 44-61): reject sizes below 100000; accept an MP3
parse with positive duration; on a parse exception fall back to the
`.flac`-extension size heuristic (above 500000); everything else — in
particular a successful parse with non-positive duration — is invalid. -/
def metaValid (path : String) (m : FileMeta) : Bool :=
  if m.size < 100000 then false
  else
    match m.mp3 with
    | some len => if 0 < len then true else false
    | none => if hasFlacExtLower path && decide (500000 < m.size) then true else false

/-- `DownloadService.is_valid_existing_file` (src/download_service.py
39-61).  A non-existent path is invalid; exceptions cannot escape (the
model is a total function, mirroring the blanket `except Exception: return
False`). -/
def is_valid_existing_file (fs : FS) (path : String) : Bool :=
  match fs path with
  | none => false
  | some m => metaValid path m

/-- `TrackInfo` from src/api_models.py. -/
structure TrackInfo where
  id : String
  title : String
  artists : String
  album : String
  trackNumber : Nat
  durationMs : Nat
  isrc : String := ""
  imageUrl : String := ""
  releaseDate : String := ""
deriving DecidableEq

/-- `DownloadService.get_formatted_filename` (src/download_service.py
26-37). -/
def get_formatted_filename (track : TrackInfo) (extension : String)
    (filenameFormat : String) : String :=
  let filename :=
    if filenameFormat = "artist_title" then track.artists ++ " - " ++ track.title ++ extension
    else if filenameFormat = "title_only" then track.title ++ extension
    else track.title ++ " - " ++ track.artists ++ extension
  sanitizeFilename filename

/-- Destination filename of a track, with the optional `f"{n:02d} - "`
number prependend (src/download_service.py 68-73 and 166-169). -/
def trackFilename (track : TrackInfo) (extension filenameFormat : String)
    (useTrackNumbers : Bool) : String :=
  let filename := get_formatted_filename track extension filenameFormat
  if useTrackNumbers then pad2 track.trackNumber ++ " - " ++ filename else filename

/-- Destination path of a track inside the output directory. -/
def trackPath (outpath : String) (track : TrackInfo) (extension filenameFormat : String)
    (useTrackNumbers : Bool) : String :=
  joinPath outpath (trackFilename track extension filenameFormat useTrackNumbers)

/-- A network request issued by `download_track_async`, in order. -/
inductive NetCall where
  | downloadReq
  | flacProbe
  | flacDownloadReq
  | audioGet (url : String)
deriving DecidableEq

/-- A JSON response of the download API as the code reads it:
HTTP status, the `success` flag, the optional `link`, and
`data.get('error', data.get('message', 'Unknown error'))`. -/
structure ApiResp where
  status : Nat
  success : Bool
  link : Option String
  errMsg : String
deriving DecidableEq

/-- The environment one call of `download_track_async` runs against: the
filesystem and the outcomes of its I/O.  `Except.error e` models the
request raising an exception with text `e` (swallowed by the enclosing
`try`).  `removeResult p = some e` models `os.remove(p)` raising.
`payload` is the body of the audio response (as file metadata), `embed` the
in-place effect of `embed_metadata` on the freshly renamed MP3 file
(its own failures are swallowed, so it is a total function).  File writes
and `os.rename` on a just-written temp file are modelled as succeeding. -/
structure FetchEnv where
  fs : FS
  removeResult : String → Option String
  downloadResp : Except String ApiResp
  flacProbeResp : Except String (Nat × Bool)
  flacDownloadResp : Except String ApiResp
  audioResp : Except String Nat
  payload : FileMeta
  embed : FileMeta → FileMeta

/-- Error-message formatting is delegated to src/error_translator.py, a
pure collaborator whose output text no claim constrains; it is modelled as
a simple tag + detail string. -/
def format_error_for_display (context detail : String) : String :=
  context ++ ": " ++ detail

/-- The FLAC negotiation block of `download_track_async`
(src/download_service.py 125-163): opportunistic, every failure inside it
is swallowed and the primary (MP3) link kept.  Returns the chosen
(url, extension) and the network calls issued. -/
def negotiate_flac (env : FetchEnv) (preferFlac : Bool) (primaryUrl : String) :
    (String × String) × List NetCall :=
  if preferFlac then
    match env.flacProbeResp with
    | .error _ => ((primaryUrl, ".mp3"), [.flacProbe])
    | .ok (status, avail) =>
      if status = 200 && avail then
        match env.flacDownloadResp with
        | .error _ => ((primaryUrl, ".mp3"), [.flacProbe, .flacDownloadReq])
        | .ok fr =>
          if fr.status = 200 && fr.success then
            match fr.link with
            | some l => ((l, ".flac"), [.flacProbe, .flacDownloadReq])
            | none => ((primaryUrl, ".mp3"), [.flacProbe, .flacDownloadReq])
          else ((primaryUrl, ".mp3"), [.flacProbe, .flacDownloadReq])
      else ((primaryUrl, ".mp3"), [.flacProbe])
  else ((primaryUrl, ".mp3"), [])

/-- The save block of `download_track_async` (src/download_service.py
187-211): write the payload to `<final>.tmp`, re-run the validity check on
the temp path; if valid, `os.rename` it onto the final path and (for MP3
only) embed metadata in place; if invalid, delete the temp file and report
corruption. -/
def save_and_finalize (fs : FS) (tmpPath finalPath ext : String) (payload : FileMeta)
    (embed : FileMeta → FileMeta) : (Bool × String) × FS :=
  let fs1 := fsSet fs tmpPath payload
  if is_valid_existing_file fs1 tmpPath then
    let fs2 := fsSet (fsErase fs1 tmpPath) finalPath payload
    let fs3 := if ext = ".mp3" then fsSet fs2 finalPath (embed payload) else fs2
    ((true, finalPath), fs3)
  else
    ((false, "Downloaded file appears to be corrupted"), fsErase fs1 tmpPath)

/-- The network-and-save tail of `download_track_async`
(src/download_service.py 86-211), entered after the dedup/cleanup step with
the (possibly cleaned) filesystem `fs1`: the download API request, FLAC
negotiation, audio download, and the temp-write / validate / promote
block. -/
def download_track_net (env : FetchEnv) (track : TrackInfo) (outpath : String)
    (preferFlac : Bool) (filenameFormat : String) (useTrackNumbers : Bool) (fs1 : FS) :
    (Bool × String) × List NetCall × FS :=
  match env.downloadResp with
  | .error e => ((false, format_error_for_display "Track Download" e), [.downloadReq], fs1)
  | .ok resp =>
    if resp.status ≠ 200 then
      ((false, format_error_for_display "Download API Request" (natToStr resp.status)),
        [.downloadReq], fs1)
    else if resp.success = false then
      ((false, resp.errMsg), [.downloadReq], fs1)
    else
      match resp.link with
      | none => ((false, "No download link provided by API"), [.downloadReq], fs1)
      | some url =>
        let neg := negotiate_flac env preferFlac url
        let downloadUrl := neg.1.1
        let ext := neg.1.2
        let finalPath := trackPath outpath track ext filenameFormat useTrackNumbers
        let calls := NetCall.downloadReq :: neg.2 ++ [NetCall.audioGet downloadUrl]
        match env.audioResp with
        | .error e => ((false, format_error_for_display "Track Download" e), calls, fs1)
        | .ok status =>
          if status ≠ 200 then
            ((false, "Failed to download audio: HTTP " ++ natToStr status), calls, fs1)
          else
            let sv := save_and_finalize fs1 (finalPath ++ ".tmp") finalPath ext
              env.payload env.embed
            (sv.1, calls, sv.2)

/-- `DownloadService.download_track_async` (src/download_service.py
63-220) as a function of its environment.  Returns the `(success, message)`
pair, the list of network calls issued, and the resulting filesystem: the
dedup check, the corrupted-file cleanup, then the network tail
`download_track_net`.  (The dead `return True, filepath` after the inner
`try` at line 213 is unreachable and omitted; the `Host`-header computation
on the download URL carries no observable effect here.) -/
def download_track (env : FetchEnv) (track : TrackInfo) (outpath : String)
    (preferFlac : Bool) (filenameFormat : String) (useTrackNumbers : Bool) :
    (Bool × String) × List NetCall × FS :=
  let filepath := trackPath outpath track ".mp3" filenameFormat useTrackNumbers
  if is_valid_existing_file env.fs filepath then
    ((true, "File already exists - skipped"), [], env.fs)
  else
    match env.fs filepath with
    | some _ =>
      match env.removeResult filepath with
      | some e => ((false, "Failed to remove corrupted file: " ++ e), [], env.fs)
      | none =>
        download_track_net env track outpath preferFlac filenameFormat useTrackNumbers
          (fsErase env.fs filepath)
    | none =>
      download_track_net env track outpath preferFlac filenameFormat useTrackNumbers env.fs

/-- Sanity check of the filename pipeline: two-digit numbering, default
title-artist ordering, slash to underscore, double quote to apostrophe. -/
theorem trackPath_example :
    trackPath "./downloads" ⟨"t1", "So/ng", "A\"B", "Al", 3, 180000, "", "", ""⟩
      ".mp3" "title_artist" true
      = "./downloads/03 - So_ng - A'B.mp3" := by decide

/-- A path ending in `.tmp` never has the (lowercased) `.flac` extension:
the last character of `anything ++ ".tmp"` is `p`, not `c`. -/
theorem hasFlacExtLower_append_tmp (s : String) : hasFlacExtLower (s ++ ".tmp") = false := by
  unfold hasFlacExtLower strEndsWith strLower
  rw [String.data_append, List.map_append]
  have htmp : List.map asciiLower ".tmp".data = ['.', 't', 'm', 'p'] := by decide
  rw [htmp]
  cases hcase : List.isSuffixOf ".flac".data (List.map asciiLower s.data ++ ['.', 't', 'm', 'p']) with
  | false => rfl
  | true =>
    exfalso
    have hsuf := (List.isSuffixOf_iff_suffix).mp hcase
    obtain ⟨u, hu⟩ := hsuf
    have h1 := congrArg List.getLast? hu
    rw [List.getLast?_append, List.getLast?_append] at h1
    simp at h1

/-- A file whose metadata passes the validity check at a `.tmp` path passed
through the MP3 branch (the `.flac` size heuristic is unreachable there),
which does not look at the path — so the same file is valid at every
path. -/
theorem metaValid_tmp_any (s q : String) (m : FileMeta)
    (h : metaValid (s ++ ".tmp") m = true) : metaValid q m = true := by
  unfold metaValid at h ⊢
  by_cases hs : m.size < 100000
  · rw [if_pos hs] at h; simp at h
  · rw [if_neg hs] at h ⊢
    cases hm : m.mp3 with
    | some len =>
      rw [hm] at h
      exact h
    | none =>
      rw [hm] at h
      dsimp only at h
      rw [hasFlacExtLower_append_tmp] at h
      simp at h

/-- The validity check on a freshly written file sees exactly the payload's
metadata. -/
theorem is_valid_fsSet_self (fs : FS) (p : String) (m : FileMeta) :
    is_valid_existing_file (fsSet fs p m) p = metaValid p m := by
  unfold is_valid_existing_file fsSet
  rw [if_pos rfl]

theorem fsSet_self (fs : FS) (p : String) (m : FileMeta) : fsSet fs p m p = some m := by
  unfold fsSet
  rw [if_pos rfl]

theorem fsSet_ne (fs : FS) (p q : String) (m : FileMeta) (h : q ≠ p) : fsSet fs p m q = fs q := by
  unfold fsSet
  rw [if_neg h]

theorem fsErase_self (fs : FS) (p : String) : fsErase fs p p = none := by
  unfold fsErase
  rw [if_pos rfl]

theorem fsErase_ne (fs : FS) (p q : String) (h : q ≠ p) : fsErase fs p q = fs q := by
  unfold fsErase
  rw [if_neg h]

/-- `out` leaves only valid files behind relative to `base`: every file
present in `out` either was already present (same content) in `base`, or
passes the validity check. -/
def leavesOnlyValid (base out : FS) : Prop :=
  ∀ p m, out p = some m → base p = some m ∨ metaValid p m = true

theorem lov_refl (fs : FS) : leavesOnlyValid fs fs := fun _ _ h => Or.inl h

theorem lov_erase (fs : FS) (q : String) : leavesOnlyValid fs (fsErase fs q) := by
  intro p m h
  by_cases hpq : p = q
  · rw [hpq, fsErase_self] at h
    cases h
  · rw [fsErase_ne _ _ _ hpq] at h
    exact Or.inl h

theorem lov_trans (a b c : FS) (h1 : leavesOnlyValid a b) (h2 : leavesOnlyValid b c) :
    leavesOnlyValid a c := by
  intro p m hc
  rcases h2 p m hc with hb | hv
  · exact h1 p m hb
  · exact Or.inr hv

/-- The save block only ever leaves valid files behind: the payload is
written to the `.tmp` sibling, promoted onto the final path only after
passing the validity check (and metadata embedding — assumed
validity-preserving — only touches the already-validated MP3), and deleted
otherwise. -/
theorem save_and_finalize_lov (fs : FS) (finalPath ext : String) (payload : FileMeta)
    (embed : FileMeta → FileMeta)
    (hembed : ∀ p m, metaValid p m = true → metaValid p (embed m) = true) :
    leavesOnlyValid fs
      (save_and_finalize fs (finalPath ++ ".tmp") finalPath ext payload embed).2 := by
  intro p m hp
  unfold save_and_finalize at hp
  dsimp only at hp
  rw [is_valid_fsSet_self] at hp
  by_cases hval : metaValid (finalPath ++ ".tmp") payload = true
  · rw [if_pos hval] at hp
    dsimp only at hp
    have hvalAny : ∀ q, metaValid q payload = true :=
      fun q => metaValid_tmp_any finalPath q payload hval
    by_cases hpf : p = finalPath
    · subst hpf
      right
      by_cases hext : ext = ".mp3"
      · rw [if_pos hext, fsSet_self] at hp
        injection hp with h2
        rw [← h2]
        exact hembed p payload (hvalAny p)
      · rw [if_neg hext, fsSet_self] at hp
        injection hp with h2
        rw [← h2]
        exact hvalAny p
    · have hp2 : fsErase (fsSet fs (finalPath ++ ".tmp") payload) (finalPath ++ ".tmp") p
          = some m := by
        by_cases hext : ext = ".mp3"
        · rw [if_pos hext, fsSet_ne _ _ _ _ hpf, fsSet_ne _ _ _ _ hpf] at hp
          exact hp
        · rw [if_neg hext, fsSet_ne _ _ _ _ hpf] at hp
          exact hp
      by_cases hpt : p = finalPath ++ ".tmp"
      · rw [hpt, fsErase_self] at hp2
        cases hp2
      · rw [fsErase_ne _ _ _ hpt, fsSet_ne _ _ _ _ hpt] at hp2
        exact Or.inl hp2
  · rw [if_neg hval] at hp
    dsimp only at hp
    by_cases hpt : p = finalPath ++ ".tmp"
    · rw [hpt, fsErase_self] at hp
      cases hp
    · rw [fsErase_ne _ _ _ hpt, fsSet_ne _ _ _ _ hpt] at hp
      exact Or.inl hp

/-- C8: full characterization of `is_valid_existing_file`.  It returns true
exactly when the path exists, the size is at least 100000 bytes, and either
the MP3 parse succeeds with positive duration, or the parse raises while
the (lowercased) path ends in `.flac` and the size exceeds 500000 bytes.
In every other case — missing file, small file, parse exception without the
flac fallback, successful parse with non-positive duration — it returns
false; it is a total function, so no exception propagates (the Python body
wraps everything in `try/except Exception: return False`). -/
theorem C8_validity_characterization (fs : FS) (p : String) :
    is_valid_existing_file fs p = true
    ↔ ∃ m, fs p = some m ∧ 100000 ≤ m.size
        ∧ ((∃ len, m.mp3 = some len ∧ 0 < len)
          ∨ (m.mp3 = none ∧ hasFlacExtLower p = true ∧ 500000 < m.size)) := by
  unfold is_valid_existing_file metaValid
  cases h : fs p with
  | none => simp
  | some m =>
    constructor
    · intro hv
      dsimp only at hv
      have hs : ¬m.size < 100000 := by
        intro hs
        rw [if_pos hs] at hv
        simp at hv
      rw [if_neg hs] at hv
      refine ⟨m, rfl, by omega, ?_⟩
      cases hm : m.mp3 with
      | some len =>
        rw [hm] at hv
        dsimp only at hv
        left
        refine ⟨len, rfl, ?_⟩
        by_contra hl
        rw [if_neg hl] at hv
        simp at hv
      | none =>
        rw [hm] at hv
        dsimp only at hv
        right
        cases hflac : hasFlacExtLower p with
        | false => rw [hflac] at hv; simp at hv
        | true =>
          refine ⟨rfl, rfl, ?_⟩
          rw [hflac] at hv
          by_contra hbig
          simp [hbig] at hv
    · rintro ⟨m', hm', hsize, hrest⟩
      injection hm' with hmm
      subst hmm
      dsimp only
      rw [if_neg (by omega : ¬m.size < 100000)]
      rcases hrest with ⟨len, hlen, hpos⟩ | ⟨hnone, hf, hbig⟩
      · rw [hlen]
        dsimp only
        rw [if_pos hpos]
      · rw [hnone]
        dsimp only
        rw [hf]
        simp [hbig]

/-- The network tail only ever leaves valid files behind relative to the
filesystem it starts from: every error path returns it untouched, and the
save block promotes only validated payloads. -/
theorem download_track_net_lov (env : FetchEnv) (track : TrackInfo) (outpath : String)
    (preferFlac : Bool) (fmt : String) (useNums : Bool) (fs1 : FS)
    (hembed : ∀ p m, metaValid p m = true → metaValid p (env.embed m) = true) :
    leavesOnlyValid fs1
      (download_track_net env track outpath preferFlac fmt useNums fs1).2.2 := by
  unfold download_track_net
  cases hdr : env.downloadResp with
  | error e => exact lov_refl _
  | ok resp =>
    dsimp only
    by_cases h200 : resp.status ≠ 200
    · rw [if_pos h200]
      exact lov_refl _
    · rw [if_neg h200]
      by_cases hsucc : resp.success = false
      · rw [if_pos hsucc]
        exact lov_refl _
      · rw [if_neg hsucc]
        cases hlink : resp.link with
        | none => exact lov_refl _
        | some url =>
          dsimp only
          cases haudio : env.audioResp with
          | error e => exact lov_refl _
          | ok status =>
            dsimp only
            by_cases hst : status ≠ 200
            · rw [if_pos hst]
              exact lov_refl _
            · rw [if_neg hst]
              exact save_and_finalize_lov _ _ _ _ _ hembed

/-- When the network tail reaches the save block and the payload fails the
validity check at the temp path, the outcome is the corrupted-file failure
and the temp file is deleted. -/
theorem download_track_net_corrupt (env : FetchEnv) (track : TrackInfo) (outpath : String)
    (preferFlac : Bool) (fmt : String) (useNums : Bool) (fs1 : FS)
    (resp : ApiResp) (url : String) (status : Nat)
    (hdr : env.downloadResp = .ok resp) (h200 : resp.status = 200)
    (hsucc : resp.success = true) (hlink : resp.link = some url)
    (haud : env.audioResp = .ok status) (hst : status = 200)
    (hbad : metaValid
        (trackPath outpath track (negotiate_flac env preferFlac url).1.2 fmt useNums ++ ".tmp")
        env.payload = false) :
    (download_track_net env track outpath preferFlac fmt useNums fs1).1
      = (false, "Downloaded file appears to be corrupted")
    ∧ (download_track_net env track outpath preferFlac fmt useNums fs1).2.2
        (trackPath outpath track (negotiate_flac env preferFlac url).1.2 fmt useNums ++ ".tmp")
      = none := by
  unfold download_track_net
  rw [hdr]
  dsimp only
  rw [h200]
  rw [if_neg (by omega : ¬(200 : Nat) ≠ 200)]
  rw [hsucc]
  rw [if_neg (by simp : ¬(true = false))]
  rw [hlink]
  dsimp only
  rw [haud]
  dsimp only
  rw [hst]
  rw [if_neg (by omega : ¬(200 : Nat) ≠ 200)]
  unfold save_and_finalize
  dsimp only
  rw [is_valid_fsSet_self, hbad]
  rw [if_neg (by simp : ¬(false = true))]
  exact ⟨rfl, fsErase_self _ _⟩

/-- C3: in every fetch the downloaded payload is first written to the temp
sibling `<final>.tmp` and re-checked; an invalid temp file is deleted and
the fetch returns the corrupted-file failure; a file is renamed onto the
final path only after passing the validity check (with metadata embedding,
which mutates the promoted MP3 in place, assumed validity-preserving) — so
every file the fetch leaves on disk either predates it unchanged or passes
the validity check, and no `.tmp` artifact of the fetch survives an
invalid download. -/
theorem C3_temp_validate_promote (env : FetchEnv) (track : TrackInfo) (outpath : String)
    (preferFlac : Bool) (fmt : String) (useNums : Bool)
    (hembed : ∀ p m, metaValid p m = true → metaValid p (env.embed m) = true) :
    leavesOnlyValid env.fs (download_track env track outpath preferFlac fmt useNums).2.2
    ∧ (∀ resp url status,
        env.downloadResp = .ok resp → resp.status = 200 → resp.success = true →
        resp.link = some url → env.audioResp = .ok status → status = 200 →
        is_valid_existing_file env.fs (trackPath outpath track ".mp3" fmt useNums) = false →
        (env.fs (trackPath outpath track ".mp3" fmt useNums) = none
          ∨ env.removeResult (trackPath outpath track ".mp3" fmt useNums) = none) →
        metaValid
            (trackPath outpath track (negotiate_flac env preferFlac url).1.2 fmt useNums
              ++ ".tmp") env.payload = false →
        (download_track env track outpath preferFlac fmt useNums).1
            = (false, "Downloaded file appears to be corrupted")
        ∧ (download_track env track outpath preferFlac fmt useNums).2.2
            (trackPath outpath track (negotiate_flac env preferFlac url).1.2 fmt useNums
              ++ ".tmp") = none) := by
  constructor
  · unfold download_track
    dsimp only
    by_cases hskip :
        is_valid_existing_file env.fs (trackPath outpath track ".mp3" fmt useNums) = true
    · rw [hskip, if_pos rfl]
      exact lov_refl _
    · rw [if_neg hskip]
      cases hex : env.fs (trackPath outpath track ".mp3" fmt useNums) with
      | none =>
        dsimp only
        exact download_track_net_lov env track outpath preferFlac fmt useNums env.fs hembed
      | some m0 =>
        dsimp only
        cases hrem : env.removeResult (trackPath outpath track ".mp3" fmt useNums) with
        | some e => exact lov_refl _
        | none =>
          exact lov_trans _ _ _ (lov_erase _ _)
            (download_track_net_lov env track outpath preferFlac fmt useNums _ hembed)
  · intro resp url status hdr h200 hsucc hlink haud hst hskip hremD hbad
    unfold download_track
    dsimp only
    rw [hskip]
    rw [if_neg (by simp : ¬(false = true))]
    cases hex : env.fs (trackPath outpath track ".mp3" fmt useNums) with
    | none =>
      dsimp only
      exact download_track_net_corrupt env track outpath preferFlac fmt useNums env.fs
        resp url status hdr h200 hsucc hlink haud hst hbad
    | some m0 =>
      dsimp only
      have hrem2 : env.removeResult (trackPath outpath track ".mp3" fmt useNums) = none := by
        rcases hremD with h | h
        · rw [hex] at h; cases h
        · exact h
      rw [hrem2]
      exact download_track_net_corrupt env track outpath preferFlac fmt useNums _
        resp url status hdr h200 hsucc hlink haud hst hbad

/-- Witness for `C3_temp_validate_promote`: an empty output directory, a
successful resolution and download whose payload is a 50-byte (truncated)
file — the fetch reports corruption and deletes the temp file. -/
theorem C3_temp_validate_promote_witness :
    (download_track
      { fs := fun _ => none
        removeResult := fun _ => none
        downloadResp := .ok ⟨200, true, some "https://cdn/x", ""⟩
        flacProbeResp := .ok (200, false)
        flacDownloadResp := .ok ⟨200, true, none, ""⟩
        audioResp := .ok 200
        payload := ⟨50, none⟩
        embed := id }
      ⟨"t1", "Song", "Artist", "Al", 3, 180000, "", "", ""⟩ "./downloads" false
      "title_artist" true).1
      = (false, "Downloaded file appears to be corrupted") := by
  have h := (C3_temp_validate_promote
    { fs := fun _ => none
      removeResult := fun _ => none
      downloadResp := .ok ⟨200, true, some "https://cdn/x", ""⟩
      flacProbeResp := .ok (200, false)
      flacDownloadResp := .ok ⟨200, true, none, ""⟩
      audioResp := .ok 200
      payload := ⟨50, none⟩
      embed := id }
    ⟨"t1", "Song", "Artist", "Al", 3, 180000, "", "", ""⟩ "./downloads" false
    "title_artist" true (fun _ _ hm => hm)).2
    ⟨200, true, some "https://cdn/x", ""⟩ "https://cdn/x" 200
    rfl rfl rfl rfl rfl rfl (by decide) (Or.inl rfl) (by decide)
  exact h.1

/-- C4: when the computed destination path (primary `.mp3` extension,
chosen naming format, optional track-number) already holds a file the
Validity Checker accepts, `download_track_async` returns the skip outcome,
issues no network call at all, and leaves the filesystem untouched. -/
theorem C4_skip_no_network (env : FetchEnv) (track : TrackInfo) (outpath : String)
    (preferFlac : Bool) (fmt : String) (useNums : Bool)
    (h : is_valid_existing_file env.fs (trackPath outpath track ".mp3" fmt useNums) = true) :
    download_track env track outpath preferFlac fmt useNums
      = ((true, "File already exists - skipped"), [], env.fs) := by
  unfold download_track
  dsimp only
  rw [h, if_pos rfl]

/-- Witness for `C4_skip_no_network`: a pre-existing 1.2 MB parseable file
at the computed destination (the spec's Scenario B). -/
theorem C4_skip_no_network_witness :
    download_track
      { fs := fun p =>
          if p = trackPath "./downloads" ⟨"t1", "Song", "Artist", "Al", 3, 180000, "", "", ""⟩
              ".mp3" "title_artist" true
          then some ⟨1200000, some 180⟩ else none
        removeResult := fun _ => none
        downloadResp := .ok ⟨200, true, some "https://cdn/x", ""⟩
        flacProbeResp := .ok (200, false)
        flacDownloadResp := .ok ⟨200, true, none, ""⟩
        audioResp := .ok 200
        payload := ⟨1200000, some 180⟩
        embed := id }
      ⟨"t1", "Song", "Artist", "Al", 3, 180000, "", "", ""⟩ "./downloads" false "title_artist" true
      = ((true, "File already exists - skipped"), [],
        fun p =>
          if p = trackPath "./downloads" ⟨"t1", "Song", "Artist", "Al", 3, 180000, "", "", ""⟩
              ".mp3" "title_artist" true
          then some ⟨1200000, some 180⟩ else none) :=
  C4_skip_no_network _ _ _ _ _ _ (by decide)

/-! ## Job lifecycle transition system

The observable registry states produced by the server endpoints
(src/server_spotidownloader.py) driving `download_tracks_batch`
(src/download_service.py 278-344) and `cancel_job` (src/job_manager.py
70-78) on one shared event loop.  Each event below is a block of code with
no `await` inside it, so events are the atomic units of interleaving:

* `submitEvent` — the `/download` endpoint body after metadata resolution
  (lines 226-252): reject an empty track list, `create_job(len(tracks))`,
  spawn the batch task, `register_task`;
* `startEvent` — the batch task's entry (line 288): status `Running`;
* `stepEvent` — one full loop iteration (lines 294-334): report the
  current-track label with the counts accumulated *so far* (the loop reports
  before fetching, so the stored counts lag one track), run the fetcher with
  some `(success, result)` outcome, bump the local counters, record the file
  for a real download;
* `stepExnEvent` — an iteration whose body raises before the progress
  report (caught at lines 336-338): `failed += 1` locally, registry
  untouched;
* `finishEvent` — loop exit (lines 340-344): final `"Completed"` label with
  the final counts, status `Completed`, and the coroutine returns (its task
  becomes done with no intervening await);
* `cancelEvent` — the `DELETE /job/{id}` endpoint calling `cancel_job`.

Cancellation is cooperative: a cancelled task raises `CancelledError`
(a `BaseException`, not caught by the loop's `except Exception`) at its
next suspension point, so no further pipeline event of that job occurs —
captured by the `cancelRequested = false` side conditions.  Job eviction
(`cleanup_finished_jobs`) removes records outright and is outside this
claim's scope. -/

/-- Phase of one job's batch pipeline coroutine. -/
inductive Phase where
  | notStarted
  | looping
  | finished
deriving DecidableEq

/-- The local state of one `download_tracks_batch` coroutine: number of
tracks, tracks fully processed, and the three local counters. -/
structure PipeState where
  total : Nat
  idx : Nat
  completed : Nat
  failed : Nat
  skipped : Nat
  phase : Phase
deriving DecidableEq

/-- A registry plus the running pipeline coroutines. -/
structure World where
  jm : JobManager
  pipes : String → Option PipeState

def submitEvent (w : World) (id : String) (n : Nat) (path : String) : World :=
  { jm := register_task (create_job w.jm id n path) id ⟨false, false⟩
    pipes := fun x => if x = id then some ⟨n, 0, 0, 0, 0, .notStarted⟩ else w.pipes x }

def startEvent (w : World) (id : String) : World :=
  { jm := update_job_status w.jm id .running none
    pipes := fun x =>
      if x = id then (w.pipes x).map fun p => { p with phase := .looping } else w.pipes x }

def stepEvent (w : World) (id label result : String) (success : Bool) : World :=
  match w.pipes id with
  | none => w
  | some p =>
    let jm1 := update_job_progress w.jm id label p.completed p.failed p.skipped
    if success then
      if result = "File already exists - skipped" then
        { jm := jm1
          pipes := fun x =>
            if x = id then some { p with idx := p.idx + 1, skipped := p.skipped + 1 }
            else w.pipes x }
      else
        { jm := add_downloaded_file jm1 id result
          pipes := fun x =>
            if x = id then some { p with idx := p.idx + 1, completed := p.completed + 1 }
            else w.pipes x }
    else
      { jm := jm1
        pipes := fun x =>
          if x = id then some { p with idx := p.idx + 1, failed := p.failed + 1 }
          else w.pipes x }

def stepExnEvent (w : World) (id : String) : World :=
  match w.pipes id with
  | none => w
  | some p =>
    { jm := w.jm
      pipes := fun x =>
        if x = id then some { p with idx := p.idx + 1, failed := p.failed + 1 }
        else w.pipes x }

def finishEvent (w : World) (id : String) : World :=
  match w.pipes id with
  | none => w
  | some p =>
    let jm1 := update_job_progress w.jm id "Completed" p.completed p.failed p.skipped
    let jm2 := update_job_status jm1 id .completed none
    { jm := { jm2 with
        tasks := fun x =>
          if x = id then (jm2.tasks x).map fun t => { t with done := true } else jm2.tasks x }
      pipes := fun x =>
        if x = id then some { p with phase := .finished } else w.pipes x }

def cancelEvent (w : World) (id : String) : World :=
  { jm := (cancel_job w.jm id).2
    pipes := w.pipes }

/-- One atomic scheduler event. -/
inductive Step : World → World → Prop where
  | submit (w : World) (id : String) (n : Nat) (path : String) :
      w.jm.refs id = none → w.jm.tasks id = none → w.pipes id = none → n ≠ 0 →
      Step w (submitEvent w id n path)
  | start (w : World) (id : String) (p : PipeState) (t : TaskRec) :
      w.pipes id = some p → p.phase = .notStarted →
      w.jm.tasks id = some t → t.cancelRequested = false →
      Step w (startEvent w id)
  | step (w : World) (id label result : String) (success : Bool) (p : PipeState) (t : TaskRec) :
      w.pipes id = some p → p.phase = .looping → p.idx < p.total →
      w.jm.tasks id = some t → t.cancelRequested = false →
      Step w (stepEvent w id label result success)
  | stepExn (w : World) (id : String) (p : PipeState) (t : TaskRec) :
      w.pipes id = some p → p.phase = .looping → p.idx < p.total →
      w.jm.tasks id = some t → t.cancelRequested = false →
      Step w (stepExnEvent w id)
  | finish (w : World) (id : String) (p : PipeState) (t : TaskRec) :
      w.pipes id = some p → p.phase = .looping → p.idx = p.total →
      w.jm.tasks id = some t → t.cancelRequested = false →
      Step w (finishEvent w id)
  | cancel (w : World) (id : String) (t : TaskRec) :
      w.jm.tasks id = some t → t.done = false →
      Step w (cancelEvent w id)

/-- The empty server at startup. -/
def worldInit : World := ⟨jmInit, fun _ => none⟩

/-- Worlds the running server can be in. -/
def Reachable (w : World) : Prop := Relation.ReflTransGen Step worldInit w

/-- The job status determined by the pipeline phase and the cancellation
flag (a cancellation eagerly overwrites the status with `Failed`). -/
def statusForPhase (cancelled : Bool) (ph : Phase) : JobStatus :=
  if cancelled then .failed
  else
    match ph with
    | .notStarted => .pending
    | .looping => .running
    | .finished => .completed

/-- The inductive invariant tying each job record to its pipeline and task. -/
def WorldInv (w : World) : Prop :=
  (∀ id r, w.jm.refs id = some r → r < w.jm.nextRef)
  ∧ (∀ id id2 r, w.jm.refs id = some r → w.jm.refs id2 = some r → id = id2)
  ∧ (∀ id, w.jm.refs id = none → w.pipes id = none ∧ w.jm.tasks id = none)
  ∧ (∀ id r, w.jm.refs id = some r →
      ∃ p t, w.pipes id = some p ∧ w.jm.tasks id = some t
        ∧ p.completed + p.failed + p.skipped = p.idx
        ∧ p.idx ≤ p.total
        ∧ 0 < p.total
        ∧ (w.jm.heap r).totalTracks = p.total
        ∧ (w.jm.heap r).completedTracks + (w.jm.heap r).failedTracks
            + (w.jm.heap r).skippedTracks ≤ p.idx
        ∧ (w.jm.heap r).status = statusForPhase t.cancelRequested p.phase
        ∧ (t.done = true → p.phase = .finished)
        ∧ (p.phase = .finished →
            t.done = true ∧ t.cancelRequested = false
            ∧ (w.jm.heap r).completedTracks = p.completed
            ∧ (w.jm.heap r).failedTracks = p.failed
            ∧ (w.jm.heap r).skippedTracks = p.skipped
            ∧ (w.jm.heap r).currentTrack = some "Completed"
            ∧ p.idx = p.total))

theorem mutateJob_refs (jm : JobManager) (id : String) (f : Job → Job) :
    (mutateJob jm id f).refs = jm.refs := by
  unfold mutateJob
  cases jm.refs id <;> rfl

theorem mutateJob_tasks (jm : JobManager) (id : String) (f : Job → Job) :
    (mutateJob jm id f).tasks = jm.tasks := by
  unfold mutateJob
  cases jm.refs id <;> rfl

theorem mutateJob_nextRef (jm : JobManager) (id : String) (f : Job → Job) :
    (mutateJob jm id f).nextRef = jm.nextRef := by
  unfold mutateJob
  cases jm.refs id <;> rfl

theorem mutateJob_heap_self (jm : JobManager) (id : String) (f : Job → Job) (r : Nat)
    (h : jm.refs id = some r) : (mutateJob jm id f).heap r = f (jm.heap r) := by
  unfold mutateJob
  rw [h]
  unfold mutateAt
  dsimp only
  rw [if_pos rfl]

theorem mutateJob_heap_other (jm : JobManager) (id : String) (f : Job → Job) (id2 : String)
    (r : Nat)
    (hinj : ∀ ida idb r0, jm.refs ida = some r0 → jm.refs idb = some r0 → ida = idb)
    (h : jm.refs id2 = some r) (hne : id2 ≠ id) :
    (mutateJob jm id f).heap r = jm.heap r := by
  unfold mutateJob
  cases hrid : jm.refs id with
  | none => rfl
  | some r0 =>
    unfold mutateAt
    dsimp only
    rw [if_neg ?_]
    intro he
    exact hne (hinj id2 id r h (by rw [he]; exact hrid))

theorem update_job_status_refs (jm : JobManager) (id : String) (st : JobStatus)
    (em : Option String) : (update_job_status jm id st em).refs = jm.refs :=
  mutateJob_refs _ _ _

theorem update_job_status_tasks (jm : JobManager) (id : String) (st : JobStatus)
    (em : Option String) : (update_job_status jm id st em).tasks = jm.tasks :=
  mutateJob_tasks _ _ _

theorem update_job_status_nextRef (jm : JobManager) (id : String) (st : JobStatus)
    (em : Option String) : (update_job_status jm id st em).nextRef = jm.nextRef :=
  mutateJob_nextRef _ _ _

theorem update_job_status_heap_other (jm : JobManager) (id : String) (st : JobStatus)
    (em : Option String) (id2 : String) (r : Nat)
    (hinj : ∀ ida idb r0, jm.refs ida = some r0 → jm.refs idb = some r0 → ida = idb)
    (h : jm.refs id2 = some r) (hne : id2 ≠ id) :
    (update_job_status jm id st em).heap r = jm.heap r :=
  mutateJob_heap_other _ _ _ _ _ hinj h hne

theorem update_job_progress_refs (jm : JobManager) (id L : String) (c f s : Nat) :
    (update_job_progress jm id L c f s).refs = jm.refs :=
  mutateJob_refs _ _ _

theorem update_job_progress_tasks (jm : JobManager) (id L : String) (c f s : Nat) :
    (update_job_progress jm id L c f s).tasks = jm.tasks :=
  mutateJob_tasks _ _ _

theorem update_job_progress_nextRef (jm : JobManager) (id L : String) (c f s : Nat) :
    (update_job_progress jm id L c f s).nextRef = jm.nextRef :=
  mutateJob_nextRef _ _ _

theorem update_job_progress_heap_self (jm : JobManager) (id L : String) (c f s : Nat)
    (r : Nat) (h : jm.refs id = some r) :
    (update_job_progress jm id L c f s).heap r
      = { jm.heap r with
          currentTrack := some L
          completedTracks := c
          failedTracks := f
          skippedTracks := s
          progress := pyProgress c f s (jm.heap r).totalTracks } :=
  mutateJob_heap_self _ _ _ _ h

theorem update_job_progress_heap_other (jm : JobManager) (id L : String) (c f s : Nat)
    (id2 : String) (r : Nat)
    (hinj : ∀ ida idb r0, jm.refs ida = some r0 → jm.refs idb = some r0 → ida = idb)
    (h : jm.refs id2 = some r) (hne : id2 ≠ id) :
    (update_job_progress jm id L c f s).heap r = jm.heap r :=
  mutateJob_heap_other _ _ _ _ _ hinj h hne

theorem add_downloaded_file_refs (jm : JobManager) (id fp : String) :
    (add_downloaded_file jm id fp).refs = jm.refs :=
  mutateJob_refs _ _ _

theorem add_downloaded_file_tasks (jm : JobManager) (id fp : String) :
    (add_downloaded_file jm id fp).tasks = jm.tasks :=
  mutateJob_tasks _ _ _

theorem add_downloaded_file_nextRef (jm : JobManager) (id fp : String) :
    (add_downloaded_file jm id fp).nextRef = jm.nextRef :=
  mutateJob_nextRef _ _ _

theorem add_downloaded_file_heap_self (jm : JobManager) (id fp : String) (r : Nat)
    (h : jm.refs id = some r) :
    (add_downloaded_file jm id fp).heap r
      = { jm.heap r with downloadedFiles := (jm.heap r).downloadedFiles ++ [fp] } :=
  mutateJob_heap_self _ _ _ _ h

theorem add_downloaded_file_heap_other (jm : JobManager) (id fp : String)
    (id2 : String) (r : Nat)
    (hinj : ∀ ida idb r0, jm.refs ida = some r0 → jm.refs idb = some r0 → ida = idb)
    (h : jm.refs id2 = some r) (hne : id2 ≠ id) :
    (add_downloaded_file jm id fp).heap r = jm.heap r :=
  mutateJob_heap_other _ _ _ _ _ hinj h hne

theorem update_job_status_heap_self_none (jm : JobManager) (id : String) (st : JobStatus)
    (r : Nat) (h : jm.refs id = some r) :
    (update_job_status jm id st none).heap r = { jm.heap r with status := st } :=
  mutateJob_heap_self _ _ _ _ h

theorem update_job_status_heap_self_msg (jm : JobManager) (id : String) (st : JobStatus)
    (msg : String) (r : Nat) (h : jm.refs id = some r) (hm : ¬msg = "") :
    (update_job_status jm id st (some msg)).heap r
      = { jm.heap r with status := st, errorMessage := some msg } := by
  unfold update_job_status
  rw [mutateJob_heap_self _ _ _ _ h]
  dsimp only
  rw [if_neg hm]

theorem inv_submit (w : World) (id : String) (n : Nat) (path : String)
    (hr : w.jm.refs id = none) (ht : w.jm.tasks id = none) (hp : w.pipes id = none)
    (hn : n ≠ 0) (hinv : WorldInv w) : WorldInv (submitEvent w id n path) := by
  obtain ⟨h1, h2, h3, h4⟩ := hinv
  unfold WorldInv submitEvent register_task create_job
  dsimp only
  refine ⟨?_, ?_, ?_, ?_⟩
  · intro id2 r h
    by_cases hid : id2 = id
    · rw [if_pos hid] at h
      injection h with he
      omega
    · rw [if_neg hid] at h
      have := h1 id2 r h
      omega
  · intro ida idb r ha hb
    by_cases hia : ida = id <;> by_cases hib : idb = id
    · rw [hia, hib]
    · rw [if_pos hia] at ha
      rw [if_neg hib] at hb
      injection ha with hea
      exact absurd (h1 idb r hb) (by omega)
    · rw [if_neg hia] at ha
      rw [if_pos hib] at hb
      injection hb with heb
      exact absurd (h1 ida r ha) (by omega)
    · rw [if_neg hia] at ha
      rw [if_neg hib] at hb
      exact h2 ida idb r ha hb
  · intro id2 h
    by_cases hid : id2 = id
    · rw [if_pos hid] at h
      simp at h
    · rw [if_neg hid] at h
      obtain ⟨hp2, ht2⟩ := h3 id2 h
      rw [if_neg hid, if_neg hid]
      exact ⟨hp2, ht2⟩
  · intro id2 r h
    by_cases hid : id2 = id
    · subst hid
      rw [if_pos rfl] at h
      injection h with he
      rw [if_pos rfl, if_pos rfl]
      refine ⟨⟨n, 0, 0, 0, 0, .notStarted⟩, ⟨false, false⟩, rfl, rfl, ?_⟩
      rw [if_pos he.symm]
      dsimp only [freshJob]
      refine ⟨rfl, by omega, by omega, rfl, by omega, rfl, ?_, ?_⟩
      · intro hd
        simp at hd
      · intro hf
        exact absurd hf (by decide)
    · rw [if_neg hid] at h
      obtain ⟨p2, t2, hp2, ht2, rest⟩ := h4 id2 r h
      rw [if_neg hid, if_neg hid]
      rw [if_neg (show r ≠ w.jm.nextRef by have := h1 id2 r h; omega)]
      exact ⟨p2, t2, hp2, ht2, rest⟩

theorem inv_start (w : World) (id : String) (p : PipeState) (t : TaskRec)
    (hpw : w.pipes id = some p) (hph : p.phase = .notStarted)
    (htw : w.jm.tasks id = some t) (hc : t.cancelRequested = false)
    (hinv : WorldInv w) : WorldInv (startEvent w id) := by
  obtain ⟨h1, h2, h3, h4⟩ := hinv
  unfold WorldInv startEvent
  dsimp only
  refine ⟨?_, ?_, ?_, ?_⟩
  · intro id2 r h
    rw [update_job_status_refs] at h
    rw [update_job_status_nextRef]
    exact h1 id2 r h
  · intro ida idb r ha hb
    rw [update_job_status_refs] at ha hb
    exact h2 ida idb r ha hb
  · intro id2 h
    rw [update_job_status_refs] at h
    rw [update_job_status_tasks]
    obtain ⟨hp2, ht2⟩ := h3 id2 h
    refine ⟨?_, ht2⟩
    by_cases hid : id2 = id
    · subst hid
      rw [hpw] at hp2
      cases hp2
    · rw [if_neg hid]
      exact hp2
  · intro id2 r h
    rw [update_job_status_refs] at h
    by_cases hid : id2 = id
    · subst hid
      obtain ⟨p2, t2, hp2, ht2, c1, c2, c3, c4, c5, c6, c7, c8⟩ := h4 id2 r h
      rw [hpw] at hp2
      injection hp2 with hpe
      rw [htw] at ht2
      injection ht2 with hte
      subst hpe
      subst hte
      refine ⟨{ p with phase := .looping }, t, ?_, ?_, ?_⟩
      · rw [if_pos rfl, hpw]
        rfl
      · rw [update_job_status_tasks]
        exact htw
      · rw [update_job_status_heap_self_none _ _ _ _ h]
        dsimp only
        refine ⟨c1, c2, c3, c4, c5, ?_, ?_, ?_⟩
        · rw [hc]
          rfl
        · intro hd
          have hfin := c7 hd
          rw [hph] at hfin
          exact absurd hfin (by decide)
        · intro hf
          exact absurd hf (by decide)
    · obtain ⟨p2, t2, hp2, ht2, rest⟩ := h4 id2 r h
      refine ⟨p2, t2, ?_, ?_, ?_⟩
      · rw [if_neg hid]
        exact hp2
      · rw [update_job_status_tasks]
        exact ht2
      · rw [update_job_status_heap_other _ _ _ _ _ _ h2 h hid]
        exact rest

/-- Shared argument for one loop iteration (with or without an exception):
the registry keeps its shape, the target job's record keeps its total and
status and its counts stay at most one iteration behind, and the pipeline
counters advance by exactly one processed track. -/
theorem inv_step_core (w : World) (id : String) (p : PipeState) (t : TaskRec)
    (jmA : JobManager) (pA : PipeState)
    (hpw : w.pipes id = some p) (hph : p.phase = .looping) (hlt : p.idx < p.total)
    (htw : w.jm.tasks id = some t)
    (hinv : WorldInv w)
    (hrefs : jmA.refs = w.jm.refs) (htasks : jmA.tasks = w.jm.tasks)
    (hnext : jmA.nextRef = w.jm.nextRef)
    (hheapo : ∀ id2 r, w.jm.refs id2 = some r → id2 ≠ id → jmA.heap r = w.jm.heap r)
    (hconst : ∀ r, w.jm.refs id = some r →
        (jmA.heap r).totalTracks = (w.jm.heap r).totalTracks
        ∧ (jmA.heap r).status = (w.jm.heap r).status
        ∧ (jmA.heap r).completedTracks + (jmA.heap r).failedTracks
            + (jmA.heap r).skippedTracks ≤ p.idx + 1)
    (hpt : pA.total = p.total) (hpi : pA.idx = p.idx + 1)
    (hps : pA.completed + pA.failed + pA.skipped
        = p.completed + p.failed + p.skipped + 1)
    (hpp : pA.phase = .looping) :
    WorldInv { jm := jmA, pipes := fun x => if x = id then some pA else w.pipes x } := by
  obtain ⟨h1, h2, h3, h4⟩ := hinv
  unfold WorldInv
  dsimp only
  refine ⟨?_, ?_, ?_, ?_⟩
  · intro id2 r h
    rw [hrefs] at h
    rw [hnext]
    exact h1 id2 r h
  · intro ida idb r ha hb
    rw [hrefs] at ha hb
    exact h2 ida idb r ha hb
  · intro id2 h
    rw [hrefs] at h
    rw [htasks]
    obtain ⟨hp2, ht2⟩ := h3 id2 h
    refine ⟨?_, ht2⟩
    by_cases hid : id2 = id
    · subst hid
      rw [hpw] at hp2
      cases hp2
    · rw [if_neg hid]
      exact hp2
  · intro id2 r h
    rw [hrefs] at h
    by_cases hid : id2 = id
    · subst hid
      obtain ⟨p2, t2, hp2, ht2, c1, c2, c3, c4, c5, c6, c7, c8⟩ := h4 id2 r h
      rw [hpw] at hp2
      injection hp2 with hpe
      rw [htw] at ht2
      injection ht2 with hte
      subst hpe
      subst hte
      obtain ⟨k4, k6, k5⟩ := hconst r h
      refine ⟨pA, t, ?_, ?_, ?_, ?_, ?_, ?_, ?_, ?_, ?_, ?_⟩
      · rw [if_pos rfl]
      · rw [htasks]
        exact htw
      · omega
      · omega
      · omega
      · rw [k4, hpt]
        exact c4
      · omega
      · rw [k6, c6, hph, hpp]
      · intro hd
        have hfin := c7 hd
        rw [hph] at hfin
        exact absurd hfin (by decide)
      · intro hf
        rw [hpp] at hf
        exact absurd hf (by decide)
    · obtain ⟨p2, t2, hp2, ht2, rest⟩ := h4 id2 r h
      refine ⟨p2, t2, ?_, ?_, ?_⟩
      · rw [if_neg hid]
        exact hp2
      · rw [htasks]
        exact ht2
      · rw [hheapo id2 r h hid]
        exact rest

theorem inv_step (w : World) (id label result : String) (success : Bool) (p : PipeState)
    (t : TaskRec) (hpw : w.pipes id = some p) (hph : p.phase = .looping)
    (hlt : p.idx < p.total) (htw : w.jm.tasks id = some t)
    (hinv : WorldInv w) : WorldInv (stepEvent w id label result success) := by
  have h2 := hinv.2.1
  have h4 := hinv.2.2.2
  have hcounts : ∀ r, w.jm.refs id = some r →
      p.completed + p.failed + p.skipped ≤ p.idx + 1 := by
    intro r h
    obtain ⟨p2, t2, hp2, ht2, c1, rest⟩ := h4 id r h
    rw [hpw] at hp2
    injection hp2 with hpe
    subst hpe
    omega
  unfold stepEvent
  rw [hpw]
  dsimp only
  by_cases hsucc : success = true
  · rw [if_pos hsucc]
    by_cases hres : result = "File already exists - skipped"
    · rw [if_pos hres]
      refine inv_step_core w id p t _ _ hpw hph hlt htw hinv
        (update_job_progress_refs _ _ _ _ _ _) (update_job_progress_tasks _ _ _ _ _ _)
        (update_job_progress_nextRef _ _ _ _ _ _) ?_ ?_ rfl rfl (by dsimp only; omega) hph
      · intro id2 r h hne
        exact update_job_progress_heap_other _ _ _ _ _ _ _ _ h2 h hne
      · intro r h
        rw [update_job_progress_heap_self _ _ _ _ _ _ _ h]
        dsimp only
        exact ⟨rfl, rfl, hcounts r h⟩
    · rw [if_neg hres]
      refine inv_step_core w id p t _ _ hpw hph hlt htw hinv ?_ ?_ ?_ ?_ ?_
        rfl rfl (by dsimp only; omega) hph
      · rw [add_downloaded_file_refs, update_job_progress_refs]
      · rw [add_downloaded_file_tasks, update_job_progress_tasks]
      · rw [add_downloaded_file_nextRef, update_job_progress_nextRef]
      · intro id2 r h hne
        rw [add_downloaded_file_heap_other _ _ _ _ _ ?_ ?_ hne,
          update_job_progress_heap_other _ _ _ _ _ _ _ _ h2 h hne]
        · intro ida idb r0 ha hb
          rw [update_job_progress_refs] at ha hb
          exact h2 ida idb r0 ha hb
        · rw [update_job_progress_refs]
          exact h
      · intro r h
        rw [add_downloaded_file_heap_self _ _ _ _ (by rw [update_job_progress_refs]; exact h),
          update_job_progress_heap_self _ _ _ _ _ _ _ h]
        dsimp only
        exact ⟨rfl, rfl, hcounts r h⟩
  · rw [if_neg hsucc]
    refine inv_step_core w id p t _ _ hpw hph hlt htw hinv
      (update_job_progress_refs _ _ _ _ _ _) (update_job_progress_tasks _ _ _ _ _ _)
      (update_job_progress_nextRef _ _ _ _ _ _) ?_ ?_ rfl rfl (by dsimp only; omega) hph
    · intro id2 r h hne
      exact update_job_progress_heap_other _ _ _ _ _ _ _ _ h2 h hne
    · intro r h
      rw [update_job_progress_heap_self _ _ _ _ _ _ _ h]
      dsimp only
      exact ⟨rfl, rfl, hcounts r h⟩

theorem inv_stepExn (w : World) (id : String) (p : PipeState) (t : TaskRec)
    (hpw : w.pipes id = some p) (hph : p.phase = .looping) (hlt : p.idx < p.total)
    (htw : w.jm.tasks id = some t)
    (hinv : WorldInv w) : WorldInv (stepExnEvent w id) := by
  have h4 := hinv.2.2.2
  have hcounts : ∀ r, w.jm.refs id = some r →
      (w.jm.heap r).completedTracks + (w.jm.heap r).failedTracks
        + (w.jm.heap r).skippedTracks ≤ p.idx + 1 := by
    intro r h
    obtain ⟨p2, t2, hp2, ht2, c1, c2, c3, c4, c5, rest⟩ := h4 id r h
    rw [hpw] at hp2
    injection hp2 with hpe
    subst hpe
    omega
  unfold stepExnEvent
  rw [hpw]
  dsimp only
  refine inv_step_core w id p t _ _ hpw hph hlt htw hinv rfl rfl rfl
    (fun _ _ _ _ => rfl) ?_ rfl rfl (by dsimp only; omega) hph
  intro r h
  exact ⟨rfl, rfl, hcounts r h⟩

theorem inv_finish (w : World) (id : String) (p : PipeState) (t : TaskRec)
    (hpw : w.pipes id = some p) (hph : p.phase = .looping) (hidx : p.idx = p.total)
    (htw : w.jm.tasks id = some t) (hc : t.cancelRequested = false)
    (hinv : WorldInv w) : WorldInv (finishEvent w id) := by
  obtain ⟨h1, h2, h3, h4⟩ := hinv
  unfold finishEvent
  rw [hpw]
  dsimp only
  unfold WorldInv
  dsimp only
  have hrefs2 : (update_job_status
      (update_job_progress w.jm id "Completed" p.completed p.failed p.skipped)
      id .completed none).refs = w.jm.refs := by
    rw [update_job_status_refs, update_job_progress_refs]
  refine ⟨?_, ?_, ?_, ?_⟩
  · intro id2 r h
    rw [hrefs2] at h
    rw [update_job_status_nextRef, update_job_progress_nextRef]
    exact h1 id2 r h
  · intro ida idb r ha hb
    rw [hrefs2] at ha hb
    exact h2 ida idb r ha hb
  · intro id2 h
    rw [hrefs2] at h
    obtain ⟨hp2, ht2⟩ := h3 id2 h
    constructor
    · by_cases hid : id2 = id
      · subst hid
        rw [hpw] at hp2
        cases hp2
      · rw [if_neg hid]
        exact hp2
    · by_cases hid : id2 = id
      · subst hid
        rw [htw] at ht2
        cases ht2
      · rw [if_neg hid, update_job_status_tasks, update_job_progress_tasks]
        exact ht2
  · intro id2 r h
    rw [hrefs2] at h
    by_cases hid : id2 = id
    · subst hid
      obtain ⟨p2, t2, hp2, ht2, c1, c2, c3, c4, c5, c6, c7, c8⟩ := h4 id2 r h
      rw [hpw] at hp2
      injection hp2 with hpe
      rw [htw] at ht2
      injection ht2 with hte
      subst hpe
      subst hte
      rw [update_job_status_heap_self_none _ _ _ _
          (by rw [update_job_progress_refs]; exact h),
        update_job_progress_heap_self _ _ _ _ _ _ _ h]
      refine ⟨{ p with phase := .finished }, { t with done := true },
        ?_, ?_, c1, c2, c3, ?_, ?_, ?_, ?_, ?_⟩
      · rw [if_pos rfl]
      · rw [if_pos rfl, update_job_status_tasks, update_job_progress_tasks, htw]
        rfl
      · dsimp only
        exact c4
      · dsimp only
        omega
      · dsimp only
        rw [hc]
        rfl
      · intro _
        rfl
      · intro _
        exact ⟨rfl, hc, rfl, rfl, rfl, rfl, hidx⟩
    · obtain ⟨p2, t2, hp2, ht2, rest⟩ := h4 id2 r h
      refine ⟨p2, t2, ?_, ?_, ?_⟩
      · rw [if_neg hid]
        exact hp2
      · rw [if_neg hid, update_job_status_tasks, update_job_progress_tasks]
        exact ht2
      · rw [update_job_status_heap_other _ _ _ _ _ _ ?_ ?_ hid,
          update_job_progress_heap_other _ _ _ _ _ _ _ _ h2 h hid]
        · exact rest
        · intro ida idb r0 ha hb
          rw [update_job_progress_refs] at ha hb
          exact h2 ida idb r0 ha hb
        · rw [update_job_progress_refs]
          exact h

theorem inv_cancel (w : World) (id : String) (t : TaskRec)
    (htw : w.jm.tasks id = some t) (hd : t.done = false)
    (hinv : WorldInv w) : WorldInv (cancelEvent w id) := by
  obtain ⟨h1, h2, h3, h4⟩ := hinv
  unfold cancelEvent cancel_job
  rw [htw]
  dsimp only
  rw [hd]
  rw [if_neg (by simp : ¬(false = true))]
  dsimp only
  unfold WorldInv
  dsimp only
  refine ⟨?_, ?_, ?_, ?_⟩
  · intro id2 r h
    rw [update_job_status_refs] at h
    rw [update_job_status_nextRef]
    exact h1 id2 r h
  · intro ida idb r ha hb
    rw [update_job_status_refs] at ha hb
    exact h2 ida idb r ha hb
  · intro id2 h
    rw [update_job_status_refs] at h
    obtain ⟨hp2, ht2⟩ := h3 id2 h
    refine ⟨hp2, ?_⟩
    rw [update_job_status_tasks]
    dsimp only
    by_cases hid : id2 = id
    · subst hid
      rw [htw] at ht2
      cases ht2
    · rw [if_neg hid]
      exact ht2
  · intro id2 r h
    rw [update_job_status_refs] at h
    by_cases hid : id2 = id
    · subst hid
      obtain ⟨p2, t2, hp2, ht2, c1, c2, c3, c4, c5, c6, c7, c8⟩ := h4 id2 r h
      rw [htw] at ht2
      injection ht2 with hte
      subst hte
      rw [update_job_status_heap_self_msg _ _ _ _ _ h (by decide)]
      refine ⟨p2, (⟨false, true⟩ : TaskRec), hp2, ?_, c1, c2, c3, ?_, ?_, ?_, ?_, ?_⟩
      · rw [update_job_status_tasks]
        dsimp only
        rw [if_pos rfl]
      · dsimp only
        exact c4
      · dsimp only
        exact c5
      · dsimp only
        rfl
      · intro hd2
        exact absurd hd2 (by decide)
      · intro hf
        have hdone := (c8 hf).1
        rw [hd] at hdone
        cases hdone
    · obtain ⟨p2, t2, hp2, ht2, rest⟩ := h4 id2 r h
      refine ⟨p2, t2, hp2, ?_, ?_⟩
      · rw [update_job_status_tasks]
        dsimp only
        rw [if_neg hid]
        exact ht2
      · rw [update_job_status_heap_other
          { w.jm with
            tasks := fun x => if x = id then some ⟨false, true⟩ else w.jm.tasks x }
          id .failed (some "Job cancelled by user") id2 r
          (fun ida idb r0 ha hb => h2 ida idb r0 ha hb) h hid]
        exact rest

/-- The empty server satisfies the invariant. -/
theorem inv_init : WorldInv worldInit := by
  unfold WorldInv worldInit jmInit
  dsimp only
  refine ⟨?_, ?_, ?_, ?_⟩
  · intro id r h
    cases h
  · intro ida idb r ha hb
    cases ha
  · intro id h
    exact ⟨rfl, rfl⟩
  · intro id r h
    cases h

/-- Every scheduler event preserves the invariant. -/
theorem inv_preserved (w w' : World) (hs : Step w w') (hinv : WorldInv w) : WorldInv w' := by
  cases hs with
  | submit id n path hr ht hp hn => exact inv_submit w id n path hr ht hp hn hinv
  | start id p t hpw hph htw hc => exact inv_start w id p t hpw hph htw hc hinv
  | step id label result success p t hpw hph hlt htw hc =>
    exact inv_step w id label result success p t hpw hph hlt htw hinv
  | stepExn id p t hpw hph hlt htw hc => exact inv_stepExn w id p t hpw hph hlt htw hinv
  | finish id p t hpw hph hidx htw hc => exact inv_finish w id p t hpw hph hidx htw hc hinv
  | cancel id t htw hd => exact inv_cancel w id t htw hd hinv

/-- Every reachable world satisfies the invariant. -/
theorem inv_reachable (w : World) (h : Reachable w) : WorldInv w := by
  unfold Reachable at h
  induction h with
  | refl => exact inv_init
  | tail hab hbc ih => exact inv_preserved _ _ hbc ih

theorem mutateJob_heap_status (jm : JobManager) (id : String) (f : Job → Job)
    (hf : ∀ j, (f j).status = j.status) (r : Nat) :
    ((mutateJob jm id f).heap r).status = (jm.heap r).status := by
  unfold mutateJob
  cases h : jm.refs id with
  | none => rfl
  | some r0 =>
    unfold mutateAt
    dsimp only
    by_cases hr : r = r0
    · rw [if_pos hr, hr, hf]
    · rw [if_neg hr]

theorem update_job_progress_heap_status (jm : JobManager) (id L : String) (c f s r : Nat) :
    ((update_job_progress jm id L c f s).heap r).status = (jm.heap r).status := by
  unfold update_job_progress
  refine mutateJob_heap_status _ _ _ ?_ r
  intro j
  rfl

theorem add_downloaded_file_heap_status (jm : JobManager) (id fp : String) (r : Nat) :
    ((add_downloaded_file jm id fp).heap r).status = (jm.heap r).status := by
  unfold add_downloaded_file
  refine mutateJob_heap_status _ _ _ ?_ r
  intro j
  rfl

theorem stepEvent_refs (w : World) (id label result : String) (success : Bool) :
    (stepEvent w id label result success).jm.refs = w.jm.refs := by
  unfold stepEvent
  cases w.pipes id with
  | none => rfl
  | some p =>
    dsimp only
    by_cases hs : success = true
    · rw [if_pos hs]
      by_cases hres : result = "File already exists - skipped"
      · rw [if_pos hres]
        exact update_job_progress_refs _ _ _ _ _ _
      · rw [if_neg hres]
        rw [add_downloaded_file_refs, update_job_progress_refs]
    · rw [if_neg hs]
      exact update_job_progress_refs _ _ _ _ _ _

theorem stepEvent_heap_status (w : World) (id label result : String) (success : Bool)
    (r : Nat) :
    ((stepEvent w id label result success).jm.heap r).status = (w.jm.heap r).status := by
  unfold stepEvent
  cases w.pipes id with
  | none => rfl
  | some p =>
    dsimp only
    by_cases hs : success = true
    · rw [if_pos hs]
      by_cases hres : result = "File already exists - skipped"
      · rw [if_pos hres]
        exact update_job_progress_heap_status _ _ _ _ _ _ _
      · rw [if_neg hres]
        rw [add_downloaded_file_heap_status, update_job_progress_heap_status]
    · rw [if_neg hs]
      exact update_job_progress_heap_status _ _ _ _ _ _ _

theorem stepExnEvent_jm (w : World) (id : String) : (stepExnEvent w id).jm = w.jm := by
  unfold stepExnEvent
  cases w.pipes id <;> rfl

theorem finishEvent_refs (w : World) (id : String) :
    (finishEvent w id).jm.refs = w.jm.refs := by
  unfold finishEvent
  cases w.pipes id with
  | none => rfl
  | some p =>
    dsimp only
    rw [update_job_status_refs, update_job_progress_refs]

theorem cancel_job_snd_refs (jm : JobManager) (id : String) :
    (cancel_job jm id).2.refs = jm.refs := by
  unfold cancel_job
  cases jm.tasks id with
  | none => rfl
  | some t =>
    dsimp only
    by_cases hdn : t.done = true
    · rw [if_pos hdn]
    · rw [if_neg hdn]
      dsimp only
      rw [update_job_status_refs]

/-- The order of the job lifecycle: `Pending` before `Running` before the
terminal states.  (`Skipped` is a per-track value of the enum and never a
job status, see the invariant.) -/
def statusOrd : JobStatus → Nat
  | .pending => 0
  | .running => 1
  | .completed => 2
  | .failed => 2
  | .skipped => 3

theorem statusOrd_statusForPhase_le (b : Bool) (ph : Phase) :
    statusOrd (statusForPhase b ph) ≤ 2 := by
  cases b <;> cases ph <;> decide

theorem statusForPhase_eq_completed (b : Bool) (ph : Phase)
    (h : statusForPhase b ph = .completed) : b = false ∧ ph = .finished := by
  cases b <;> cases ph <;> first | exact ⟨rfl, rfl⟩ | exact absurd h (by decide)

theorem statusForPhase_eq_failed (b : Bool) (ph : Phase)
    (h : statusForPhase b ph = .failed) : b = true := by
  cases b <;> cases ph <;> first | rfl | exact absurd h (by decide)

/-- C7: along every scheduler event from a reachable world, each job's
status only moves forward in the order `Pending → Running → {Completed,
Failed}` (`statusOrd` is non-decreasing, so in particular no job ever
returns from `Running` to `Pending`), and a status that has reached a
terminal state (`Completed` or `Failed`) never changes again. -/
theorem C7_status_forward_only (w w' : World) (hw : Reachable w) (hs : Step w w')
    (id : String) (r r2 : Nat) (h : w.jm.refs id = some r) (h2 : w'.jm.refs id = some r2) :
    statusOrd (w.jm.heap r).status ≤ statusOrd (w'.jm.heap r2).status
    ∧ (((w.jm.heap r).status = .completed ∨ (w.jm.heap r).status = .failed) →
        (w'.jm.heap r2).status = (w.jm.heap r).status) := by
  have hinv := inv_reachable w hw
  obtain ⟨h1, hinj, h3, h4⟩ := hinv
  cases hs with
  | submit id0 n path hr0 ht0 hp0 hn0 =>
    have hne : id ≠ id0 := by
      intro he
      rw [he, hr0] at h
      cases h
    unfold submitEvent register_task create_job at h2
    dsimp only at h2
    rw [if_neg hne] at h2
    rw [h] at h2
    injection h2 with hre
    subst hre
    unfold submitEvent register_task create_job
    dsimp only
    rw [if_neg (show r ≠ w.jm.nextRef by have := h1 id r h; omega)]
    exact ⟨Nat.le_refl _, fun _ => rfl⟩
  | start id0 p t hpw hph htw hc =>
    unfold startEvent at h2
    dsimp only at h2
    rw [update_job_status_refs] at h2
    rw [h] at h2
    injection h2 with hre
    subst hre
    unfold startEvent
    dsimp only
    by_cases hid : id = id0
    · obtain ⟨p2, t2, hp2, ht2, c1, c2, c3, c4, c5, c6, c7c, c8⟩ := h4 _ r h
      rw [hid, hpw] at hp2
      injection hp2 with hpe
      subst hpe
      rw [hid, htw] at ht2
      injection ht2 with hte
      subst hte
      rw [← hid] at *
      rw [update_job_status_heap_self_none _ _ _ _ h]
      dsimp only
      rw [c6, hc, hph]
      constructor
      · decide
      · intro hterm
        rcases hterm with hterm | hterm <;> exact absurd hterm (by decide)
    · rw [update_job_status_heap_other _ _ _ _ _ _ hinj h hid]
      exact ⟨Nat.le_refl _, fun _ => rfl⟩
  | step id0 label result success p t hpw hph hlt htw hc =>
    rw [stepEvent_refs] at h2
    rw [h] at h2
    injection h2 with hre
    subst hre
    rw [stepEvent_heap_status]
    exact ⟨Nat.le_refl _, fun _ => rfl⟩
  | stepExn id0 p t hpw hph hlt htw hc =>
    rw [stepExnEvent_jm] at h2 ⊢
    rw [h] at h2
    injection h2 with hre
    subst hre
    exact ⟨Nat.le_refl _, fun _ => rfl⟩
  | finish id0 p t hpw hph hidx htw hc =>
    rw [finishEvent_refs] at h2
    rw [h] at h2
    injection h2 with hre
    subst hre
    unfold finishEvent
    rw [hpw]
    dsimp only
    by_cases hid : id = id0
    · obtain ⟨p2, t2, hp2, ht2, c1, c2, c3, c4, c5, c6, c7c, c8⟩ := h4 _ r h
      rw [hid, hpw] at hp2
      injection hp2 with hpe
      subst hpe
      rw [hid, htw] at ht2
      injection ht2 with hte
      subst hte
      rw [← hid] at *
      rw [update_job_status_heap_self_none _ _ _ _ ?hq, update_job_progress_heap_self _ _ _ _ _ _ _ h]
      · dsimp only
        rw [c6, hc, hph]
        constructor
        · decide
        · intro hterm
          rcases hterm with hterm | hterm <;> exact absurd hterm (by decide)
      case hq =>
        rw [update_job_progress_refs]
        exact h
    · rw [update_job_status_heap_other _ _ _ _ _ _ ?hinjf ?hf hid,
        update_job_progress_heap_other _ _ _ _ _ _ _ _ hinj h hid]
      · exact ⟨Nat.le_refl _, fun _ => rfl⟩
      case hinjf =>
        intro ida idb r0 ha hb
        rw [update_job_progress_refs] at ha hb
        exact hinj ida idb r0 ha hb
      case hf =>
        rw [update_job_progress_refs]
        exact h
  | cancel id0 t htw hd =>
    have hrefs : (cancelEvent w id0).jm.refs = w.jm.refs := cancel_job_snd_refs _ _
    rw [hrefs] at h2
    rw [h] at h2
    injection h2 with hre
    subst hre
    unfold cancelEvent cancel_job
    rw [htw]
    dsimp only
    rw [hd]
    rw [if_neg (by simp : ¬(false = true))]
    dsimp only
    by_cases hid : id = id0
    · obtain ⟨p2, t2, hp2, ht2, c1, c2, c3, c4, c5, c6, c7c, c8⟩ := h4 _ r h
      rw [hid, htw] at ht2
      injection ht2 with hte
      subst hte
      rw [← hid] at *
      rw [update_job_status_heap_self_msg _ _ _ _ _ ?hc2 (by decide)]
      · dsimp only
        rw [c6]
        constructor
        · exact statusOrd_statusForPhase_le _ _
        · intro hterm
          rcases hterm with hterm | hterm
          · obtain ⟨hb, hph2⟩ := statusForPhase_eq_completed _ _ hterm
            have hdone := (c8 hph2).1
            rw [hd] at hdone
            cases hdone
          · rw [hterm]
      case hc2 => exact h
    · rw [update_job_status_heap_other _ _ _ _ _ _ ?hinjc ?hcc hid]
      · exact ⟨Nat.le_refl _, fun _ => rfl⟩
      case hinjc =>
        intro ida idb r0 ha hb
        exact hinj ida idb r0 ha hb
      case hcc => exact h

/-- C1 counterexample: the claim "completed+failed+skipped = total once the
status is terminal (Completed **or Failed**)" is false: submit a one-track
job and cancel it before any track is processed — the registry shows status
`Failed` (terminal) with counts 0+0+0 = 0 < 1 = total, in a reachable
state. -/
theorem C1_counterexample :
    Reachable (cancelEvent (submitEvent worldInit "j" 1 "p") "j")
    ∧ (cancelEvent (submitEvent worldInit "j" 1 "p") "j").jm.refs "j" = some 0
    ∧ ((cancelEvent (submitEvent worldInit "j" 1 "p") "j").jm.heap 0).status = .failed
    ∧ ((cancelEvent (submitEvent worldInit "j" 1 "p") "j").jm.heap 0).completedTracks
        + ((cancelEvent (submitEvent worldInit "j" 1 "p") "j").jm.heap 0).failedTracks
        + ((cancelEvent (submitEvent worldInit "j" 1 "p") "j").jm.heap 0).skippedTracks = 0
    ∧ ((cancelEvent (submitEvent worldInit "j" 1 "p") "j").jm.heap 0).totalTracks = 1 := by
  refine ⟨?_, by decide, by decide, by decide, by decide⟩
  exact Relation.ReflTransGen.tail
    (Relation.ReflTransGen.single (Step.submit worldInit "j" 1 "p" rfl rfl rfl (by decide)))
    (Step.cancel (submitEvent worldInit "j" 1 "p") "j" ⟨false, false⟩ (by decide) rfl)

/-- C1 (amended): in every reachable state, every job satisfies
`completed + failed + skipped ≤ total`, and equality holds once the status
is `Completed`; a job whose status is `Failed` was cancelled mid-batch and
may hold partial counts (see `C1_counterexample`). -/
theorem C1_amended (w : World) (hw : Reachable w) (id : String) (r : Nat)
    (h : w.jm.refs id = some r) :
    (w.jm.heap r).completedTracks + (w.jm.heap r).failedTracks
        + (w.jm.heap r).skippedTracks ≤ (w.jm.heap r).totalTracks
    ∧ ((w.jm.heap r).status = .completed →
        (w.jm.heap r).completedTracks + (w.jm.heap r).failedTracks
          + (w.jm.heap r).skippedTracks = (w.jm.heap r).totalTracks) := by
  have hinv := inv_reachable w hw
  obtain ⟨h1, hinj, h3, h4⟩ := hinv
  obtain ⟨p, t, hp, ht, c1, c2, c3, c4, c5, c6, c7c, c8⟩ := h4 id r h
  constructor
  · rw [c4]
    omega
  · intro hst
    rw [c6] at hst
    obtain ⟨hb, hph⟩ := statusForPhase_eq_completed _ _ hst
    obtain ⟨_, _, e1, e2, e3, _, hidx⟩ := c8 hph
    rw [e1, e2, e3, c4]
    omega

/-- Witness for `C1_amended`: the freshly submitted one-track job. -/
theorem C1_amended_witness :
    ((submitEvent worldInit "j" 1 "p").jm.heap 0).completedTracks
        + ((submitEvent worldInit "j" 1 "p").jm.heap 0).failedTracks
        + ((submitEvent worldInit "j" 1 "p").jm.heap 0).skippedTracks
        ≤ ((submitEvent worldInit "j" 1 "p").jm.heap 0).totalTracks
    ∧ (((submitEvent worldInit "j" 1 "p").jm.heap 0).status = .completed →
        ((submitEvent worldInit "j" 1 "p").jm.heap 0).completedTracks
          + ((submitEvent worldInit "j" 1 "p").jm.heap 0).failedTracks
          + ((submitEvent worldInit "j" 1 "p").jm.heap 0).skippedTracks
          = ((submitEvent worldInit "j" 1 "p").jm.heap 0).totalTracks) :=
  C1_amended (submitEvent worldInit "j" 1 "p")
    (Relation.ReflTransGen.single (Step.submit worldInit "j" 1 "p" rfl rfl rfl (by decide)))
    "j" 0 (by decide)

/-- C2: in every reachable state, a job whose pipeline has finished its
track loop shows status `Completed`, the final `"Completed"` label, and the
pipeline's final counts — regardless of how many tracks failed (the witness
runs a batch whose only track failed); and a job showing `Failed` had
cancellation requested on its task, i.e. only an explicit cancellation
produces `Failed`. -/
theorem C2_batch_finalizes_completed (w : World) (hw : Reachable w) (id : String) (r : Nat)
    (h : w.jm.refs id = some r) :
    (∀ p, w.pipes id = some p → p.phase = .finished →
      (w.jm.heap r).status = .completed
      ∧ (w.jm.heap r).currentTrack = some "Completed"
      ∧ (w.jm.heap r).completedTracks = p.completed
      ∧ (w.jm.heap r).failedTracks = p.failed
      ∧ (w.jm.heap r).skippedTracks = p.skipped)
    ∧ (∀ t, w.jm.tasks id = some t → (w.jm.heap r).status = .failed →
        t.cancelRequested = true) := by
  have hinv := inv_reachable w hw
  obtain ⟨h1, hinj, h3, h4⟩ := hinv
  obtain ⟨p2, t2, hp2, ht2, c1, c2, c3, c4, c5, c6, c7c, c8⟩ := h4 id r h
  constructor
  · intro p hp hfin
    rw [hp2] at hp
    injection hp with hpe
    subst hpe
    obtain ⟨hdone, hcancel, e1, e2, e3, e4, hidx⟩ := c8 hfin
    refine ⟨?_, e4, e1, e2, e3⟩
    rw [c6, hcancel, hfin]
    rfl
  · intro t ht hst
    rw [ht2] at ht
    injection ht with hte
    subst hte
    rw [c6] at hst
    exact statusForPhase_eq_failed _ _ hst

/-- Witness for `C2_batch_finalizes_completed`: a one-track batch whose
only track fails is still finalized as `Completed` with `failed = 1`. -/
theorem C2_batch_finalizes_completed_witness :
    ((finishEvent (stepEvent (startEvent (submitEvent worldInit "j" 1 "p") "j")
        "j" "Song - Artist" "boom" false) "j").jm.heap 0).status = .completed
    ∧ ((finishEvent (stepEvent (startEvent (submitEvent worldInit "j" 1 "p") "j")
        "j" "Song - Artist" "boom" false) "j").jm.heap 0).currentTrack
        = some "Completed"
    ∧ ((finishEvent (stepEvent (startEvent (submitEvent worldInit "j" 1 "p") "j")
        "j" "Song - Artist" "boom" false) "j").jm.heap 0).failedTracks = 1 := by
  have hreach : Reachable (finishEvent (stepEvent (startEvent
      (submitEvent worldInit "j" 1 "p") "j") "j" "Song - Artist" "boom" false) "j") := by
    refine Relation.ReflTransGen.tail (Relation.ReflTransGen.tail
      (Relation.ReflTransGen.tail
        (Relation.ReflTransGen.single (Step.submit worldInit "j" 1 "p" rfl rfl rfl (by decide)))
        (Step.start (submitEvent worldInit "j" 1 "p") "j"
          ⟨1, 0, 0, 0, 0, .notStarted⟩ ⟨false, false⟩ (by decide) rfl (by decide) rfl))
      (Step.step (startEvent (submitEvent worldInit "j" 1 "p") "j")
        "j" "Song - Artist" "boom" false
        ⟨1, 0, 0, 0, 0, .looping⟩ ⟨false, false⟩ (by decide) rfl (by decide) (by decide) rfl))
      (Step.finish (stepEvent (startEvent (submitEvent worldInit "j" 1 "p") "j")
          "j" "Song - Artist" "boom" false) "j"
        ⟨1, 1, 0, 1, 0, .looping⟩ ⟨false, false⟩ (by decide) rfl (by decide) (by decide) rfl)
  have hmain := (C2_batch_finalizes_completed _ hreach "j" 0 (by decide)).1
    ⟨1, 1, 0, 1, 0, .finished⟩ (by decide) rfl
  exact ⟨hmain.1, hmain.2.1, by rw [hmain.2.2.2.1]⟩

/-- Witness for `C7_status_forward_only`: the `start` event on a freshly
submitted job moves it from `Pending` to `Running`. -/
theorem C7_status_forward_only_witness :
    statusOrd ((submitEvent worldInit "j" 1 "p").jm.heap 0).status
      ≤ statusOrd ((startEvent (submitEvent worldInit "j" 1 "p") "j").jm.heap 0).status
    ∧ ((((submitEvent worldInit "j" 1 "p").jm.heap 0).status = .completed
          ∨ ((submitEvent worldInit "j" 1 "p").jm.heap 0).status = .failed) →
        ((startEvent (submitEvent worldInit "j" 1 "p") "j").jm.heap 0).status
          = ((submitEvent worldInit "j" 1 "p").jm.heap 0).status) :=
  C7_status_forward_only (submitEvent worldInit "j" 1 "p")
    (startEvent (submitEvent worldInit "j" 1 "p") "j")
    (Relation.ReflTransGen.single (Step.submit worldInit "j" 1 "p" rfl rfl rfl (by decide)))
    (Step.start (submitEvent worldInit "j" 1 "p") "j"
      ⟨1, 0, 0, 0, 0, .notStarted⟩ ⟨false, false⟩ (by decide) rfl (by decide) rfl)
    "j" 0 0 (by decide) (by decide)

end SpotiDL
